import Mathlib

/-!
Verification of the multi-backend branch/timestamp resolution engine of
teamscale-timestamp.

The Rust sources are embedded shallowly:

* pure string processing (SVN URL branch extraction, Git branch-listing
  preprocessing, RFC 3339 date parsing and formatting) is translated into
  executable Lean functions;
* the effectful probes (`svn`/`git` subprocess calls, environment lookups,
  the TFS HTTP request) are modelled by a `World` record supplying the
  outcome of each external interaction, and every operation returns its
  value together with a trace of the external events it performed, in
  evaluation order.  Rust's `Option::or` evaluates its argument eagerly,
  which the embedding mirrors faithfully.

External library behaviour (chrono's RFC 3339 parser, Rust's integer
formatting, the regex engine's leftmost-first matching) is modelled
directly by Lean functions; serde_json's parsing of the changeset response
is kept abstract as a function argument `jp` returning the `createdDate`
field.
-/

/-- ASCII decimal digit test, used by the RFC 3339 parser model. -/
def isDigitCh (c : Char) : Bool := 48 ≤ c.toNat && c.toNat ≤ 57

/-- Numeric value of a decimal digit character. -/
def charVal (c : Char) : Nat := c.toNat - 48

/-- Whitespace test; models Rust's `char::is_whitespace` on the ASCII
whitespace characters that actually occur in command output. -/
def isWsCh (c : Char) : Bool := c = ' ' || c = '\t' || c = '\n' || c = '\r'

/-- Models Rust's `str::trim` (drop whitespace at both ends). -/
def trimL (cs : List Char) : List Char :=
  ((cs.dropWhile isWsCh).reverse.dropWhile isWsCh).reverse

/-- `str::trim` lifted to `String`. -/
def trimStr (s : String) : String := String.mk (trimL s.data)

/-- `needle` occurs as a contiguous substring; models Rust's `str::contains`
with a string pattern. -/
def containsSub (needle : List Char) : List Char → Bool
  | [] => needle.isEmpty
  | c :: rest => needle.isPrefixOf (c :: rest) || containsSub needle rest

/-- `str::contains` lifted to `String`. -/
def strContains (s needle : String) : Bool := containsSub needle.data s.data

/-- Decimal digits of `n`, most significant first; the first argument is
fuel, which strictly bounds the recursion depth.  Models the digit part of
Rust's integer `Display`. -/
def natReprAux : Nat → Nat → List Char
  | 0, _ => []
  | _ + 1, 0 => []
  | fuel + 1, n + 1 => natReprAux fuel ((n + 1) / 10) ++ [Char.ofNat (48 + (n + 1) % 10)]

/-- Decimal representation of a natural number; models Rust's `Display`
for unsigned integers. -/
def natRepr (n : Nat) : String := if n = 0 then "0" else String.mk (natReprAux n n)

/-- Decimal representation of an integer; models Rust's `Display` for
`i64` as used by the timestamp formatting code. -/
def intRepr (i : Int) : String :=
  if i < 0 then "-" ++ natRepr i.natAbs else natRepr i.toNat

/-- Zero-pad to width 3; models Rust's `:03` format specifier for the
values in range that the code feeds it. -/
def pad3 (m : Nat) : String :=
  if m < 10 then "00" ++ natRepr m else if m < 100 then "0" ++ natRepr m else natRepr m

/-- Value of a decimal digit string, read left to right. -/
def decNatValue (s : String) : Nat := s.data.foldl (fun a c => a * 10 + charVal c) 0

/-- Result of parsing an RFC 3339 date: the whole epoch seconds
(chrono's `timestamp()`, floor of the instant) and the millisecond part
(chrono's `timestamp_subsec_millis()`). -/
structure RfcDate where
  secs : Int
  millis : Nat
deriving DecidableEq

/-- Gregorian leap-year rule. -/
def isLeapYear (y : Nat) : Bool := y % 4 = 0 && (y % 100 ≠ 0 || y % 400 = 0)

/-- Number of days of month `m` (1-12) in year `y`. -/
def daysInMonth (y m : Nat) : Nat :=
  if m = 1 then 31 else if m = 2 then (if isLeapYear y then 29 else 28)
  else if m = 3 then 31 else if m = 4 then 30 else if m = 5 then 31
  else if m = 6 then 30 else if m = 7 then 31 else if m = 8 then 31
  else if m = 9 then 30 else if m = 10 then 31 else if m = 11 then 30 else 31

/-- Days since 1970-01-01 of the civil date `y-m-d` (Howard Hinnant's
days-from-civil algorithm, the one underlying chrono's calendar
computation).  The divisions stay on non-negative operands for the
four-digit years the parser admits, so rounding conventions never differ
from the C++ original. -/
def daysFromCivil (y m d : Nat) : Int :=
  let yi : Int := (y : Int) - (if m ≤ 2 then 1 else 0)
  let era : Int := (if 0 ≤ yi then yi else yi - 399) / 400
  let yoe : Int := yi - era * 400
  let mp : Nat := (m + 9) % 12
  let doy : Int := ((153 * mp + 2) / 5 + d - 1 : Nat)
  let doe : Int := yoe * 365 + yoe / 4 - yoe / 100 + doy
  era * 146097 + doe - 719468

/-- Read exactly `n` decimal digits, accumulating their value. -/
def readFixed : Nat → Nat → List Char → Option (Nat × List Char)
  | 0, acc, cs => some (acc, cs)
  | n + 1, acc, c :: cs => if isDigitCh c then readFixed n (acc * 10 + charVal c) cs else none
  | _ + 1, _, [] => none

/-- Consume one expected character. -/
def expectCh (c : Char) : List Char → Option (List Char)
  | d :: cs => if d = c then some cs else none
  | [] => none

/-- Millisecond value of a fractional-second digit string: the first three
digits, zero-padded on the right to three places. -/
def fracValue (ds : List Char) : Nat :=
  (ds.take 3).foldl (fun a c => a * 10 + charVal c) 0 * 10 ^ (3 - (ds.take 3).length)

/-- Optional fractional seconds: a dot followed by at least one digit. -/
def readFrac : List Char → Option (Nat × List Char)
  | '.' :: rest =>
    if (rest.takeWhile isDigitCh).isEmpty then none
    else some (fracValue (rest.takeWhile isDigitCh), rest.drop (rest.takeWhile isDigitCh).length)
  | cs => some (0, cs)

/-- Time-zone designator: `Z` (either case) or a `+HH:MM` / `-HH:MM`
offset, returned in seconds. -/
def readTz : List Char → Option (Int × List Char)
  | ['Z'] => some (0, [])
  | ['z'] => some (0, [])
  | c :: rest =>
    if c = '+' || c = '-' then
      match readFixed 2 0 rest with
      | some (oh, r1) =>
        match expectCh ':' r1 with
        | some r2 =>
          match readFixed 2 0 r2 with
          | some (om, r3) =>
            if oh ≤ 23 ∧ om ≤ 59 then
              some ((if c = '-' then -1 else 1) * ((oh : Int) * 3600 + (om : Int) * 60), r3)
            else none
          | none => none
        | none => none
      | none => none
    else none
  | [] => none

/-- Model of chrono's `DateTime::parse_from_rfc3339`, reduced to the two
observations the program uses: `timestamp()` and
`timestamp_subsec_millis()`.  Accepts `YYYY-MM-DDTHH:MM:SS`, an optional
fractional-second part, and a `Z` or `+-HH:MM` offset, with calendar
validation; leap seconds are not modelled. -/
def parseRFC3339 (s : String) : Option RfcDate :=
  match readFixed 4 0 s.data with
  | none => none
  | some (y, r1) =>
  match expectCh '-' r1 with
  | none => none
  | some r2 =>
  match readFixed 2 0 r2 with
  | none => none
  | some (mo, r3) =>
  match expectCh '-' r3 with
  | none => none
  | some r4 =>
  match readFixed 2 0 r4 with
  | none => none
  | some (d, r5) =>
  match r5 with
  | [] => none
  | sep :: r6 =>
  if sep = 'T' ∨ sep = 't' ∨ sep = ' ' then
    match readFixed 2 0 r6 with
    | none => none
    | some (h, r7) =>
    match expectCh ':' r7 with
    | none => none
    | some r8 =>
    match readFixed 2 0 r8 with
    | none => none
    | some (mi, r9) =>
    match expectCh ':' r9 with
    | none => none
    | some r10 =>
    match readFixed 2 0 r10 with
    | none => none
    | some (sec, r11) =>
    match readFrac r11 with
    | none => none
    | some (ms, r12) =>
    match readTz r12 with
    | none => none
    | some (off, r13) =>
    if r13 = [] ∧ 1 ≤ mo ∧ mo ≤ 12 ∧ 1 ≤ d ∧ d ≤ daysInMonth y mo ∧ h ≤ 23 ∧ mi ≤ 59 ∧ sec ≤ 59 then
      some { secs := daysFromCivil y mo d * 86400 + ((h * 3600 + mi * 60 + sec : Nat) : Int) - off
             millis := ms }
    else none
  else none

/-- One match attempt of a literal keyword followed by the capture
`[^/]+` at the head of `cs`: the keyword, then a maximal non-empty run of
non-slash characters. -/
def kwCapture (kw : List Char) (cs : List Char) : Option (List Char) :=
  if kw.isPrefixOf cs then
    if ((cs.drop kw.length).takeWhile fun c => c ≠ '/').isEmpty then none
    else some ((cs.drop kw.length).takeWhile fun c => c ≠ '/')
  else none

/-- One match attempt of the first regex alternative
`/(branches|tags)/(?P<branch>[^/]+)` at the head of `cs` (the two keyword
spellings cannot both match, so trying them in order is the regex's
alternation). -/
def tryBranchesTags (cs : List Char) : Option (List Char) :=
  match kwCapture "/branches/".data cs with
  | some name => some name
  | none => kwCapture "/tags/".data cs

/-- One match attempt of the second regex alternative `/(?P<trunk>trunk)(/|$)`
at the head of `cs`: the literal `/trunk` followed by the end of the
string or a slash. -/
def tryTrunk (cs : List Char) : Option (List Char) :=
  if "/trunk".data.isPrefixOf cs ∧ (cs.drop 6 = [] ∨ (cs.drop 6).head? = some '/') then
    some "trunk".data
  else none

/-- Leftmost-first search of the regex
`/(branches|tags)/(?P<branch>[^/]+)|/(?P<trunk>trunk)(/|$)` over the
character list, mirroring the Rust regex engine's match semantics:
positions are tried left to right and, at each position, the alternatives
in order. -/
def scanUrl : List Char → Option (List Char)
  | [] => none
  | c :: rest =>
    match tryBranchesTags (c :: rest) with
    | some name => some name
    | none =>
      match tryTrunk (c :: rest) with
      | some v => some v
      | none => scanUrl rest

/-- Embedding of `extract_branch_from_url` (src/svn.rs): on a regex match,
the `branch` capture is returned if it participated, else the `trunk`
group yields the literal `"trunk"`; no match yields `None`.  `scanUrl`
already returns exactly that value. -/
def extract_branch_from_url (url : String) : Option String :=
  (scanUrl url.data).map fun cs => String.mk cs

/-- Embedding of `svn_date_string_to_timestamp` (src/svn.rs):
`DateTime::parse_from_rfc3339(..).map(|d| d.timestamp()).ok()`. -/
def svn_date_string_to_timestamp (s : String) : Option Int :=
  (parseRFC3339 s).map RfcDate.secs

/-- Specification-side view of one match of keyword `kw` followed by a
captured name inside the tail `tail`: the name is non-empty, contains no
slash, follows `kw` immediately, and extends to the next slash or the end
of the string. -/
def segAtTail (kw tail name : List Char) : Prop :=
  name ≠ [] ∧ (∀ c ∈ name, c ≠ '/') ∧ (kw ++ name) <+: tail ∧
    (tail.drop (kw.length + name.length) = [] ∨
      (tail.drop (kw.length + name.length)).head? = some '/')

/-- A `/branches/<name>` or `/tags/<name>` segment starts at position `i`
of `cs`, capturing `name`. -/
def branchSegAt (cs : List Char) (i : Nat) (name : List Char) : Prop :=
  segAtTail "/branches/".data (cs.drop i) name ∨ segAtTail "/tags/".data (cs.drop i) name

/-- A `/trunk` segment, terminated by a slash or the end of the string,
starts at position `i` of `cs`. -/
def trunkSegAt (cs : List Char) (i : Nat) : Prop :=
  "/trunk".data <+: cs.drop i ∧
    ((cs.drop i).drop 6 = [] ∨ ((cs.drop i).drop 6).head? = some '/')

/-- Some alternative of the URL regex matches at position `i`. -/
def anyMatchAt (cs : List Char) (i : Nat) : Prop :=
  (∃ name, branchSegAt cs i name) ∨ trunkSegAt cs i

/-- The value produced by a match at position `i`. -/
def matchValAt (cs : List Char) (i : Nat) (v : List Char) : Prop :=
  branchSegAt cs i v ∨ (trunkSegAt cs i ∧ v = "trunk".data)

instance (kw tail name : List Char) : Decidable (segAtTail kw tail name) := by
  unfold segAtTail
  infer_instance

instance (cs : List Char) (i : Nat) (name : List Char) : Decidable (branchSegAt cs i name) := by
  unfold branchSegAt
  infer_instance

instance (cs : List Char) (i : Nat) : Decidable (trunkSegAt cs i) := by
  unfold trunkSegAt
  infer_instance

instance (cs : List Char) (i : Nat) (v : List Char) : Decidable (matchValAt cs i v) := by
  unfold matchValAt
  infer_instance

/-- Split into lines; models Rust's `str::lines` (split at newline, the
final line ending optional, a trailing carriage return stripped). -/
def splitNlAux : List Char → List Char → List (List Char)
  | [], acc => [acc.reverse]
  | '\n' :: rest, acc => acc.reverse :: splitNlAux rest []
  | c :: rest, acc => splitNlAux rest (c :: acc)

/-- Strip one trailing carriage return. -/
def stripCr (cs : List Char) : List Char :=
  match cs.reverse with
  | '\r' :: rest => rest.reverse
  | _ => cs

/-- `str::lines` on a `String`. -/
def linesOf (s : String) : List String :=
  match s.data with
  | [] => []
  | cs =>
    let parts := splitNlAux cs []
    let parts := if parts.getLast? = some [] then parts.dropLast else parts
    parts.map fun l => String.mk (stripCr l)

namespace Git

/-- The per-line transformation of `preprocess_branch_text` (src/git.rs):
`line.trim()` followed by one anchored replacement of the regex
`^\s*[*]\s*` by the empty string (after trimming, that strips one leading
star and the whitespace after it). -/
def cleanLine (s : String) : String :=
  let t := trimL s.data
  match t with
  | '*' :: rest => String.mk (rest.dropWhile isWsCh)
  | _ => String.mk t

/-- Embedding of `Git::preprocess_branch_text` (src/git.rs): split the
listing into lines, clean each line, and drop lines mentioning a detached
HEAD. -/
def preprocess_branch_text (branch_text : String) : List String :=
  ((linesOf branch_text).map cleanLine).filter
    fun branch => !(strContains branch "HEAD detached")

/-- Embedding of `Git::extract_single_branch` (src/git.rs): the single
remaining branch, if exactly one remains. -/
def extract_single_branch (branch_text : String) : Option String :=
  match preprocess_branch_text branch_text with
  | [] => none
  | [b] => some b
  | _ => none

end Git

/-- The access-token variants of src/tfs.rs. -/
inductive AccessToken where
  | Personal (token : String)
  | Oauth (token : String)
deriving DecidableEq

/-- The errors of src/tfs.rs (`TfsError`), with the payloads the claims
talk about.  Payloads that only feed the `Display` implementation
(the reqwest error values, the serde error value) are dropped. -/
inductive TfsError where
  | JsonParseFailed (body : String)
  | RequestTimedOut
  | CannotReadRequestBody
  | TfsInternalServerError
  | AccessTokenNotProvided
  | InvalidAccessToken
  | RequestStatusNotSuccessful (status : Nat) (url : String)
  | OtherRequestError
  | DateStringCannotBeParsed (dateString : String)
deriving DecidableEq

instance {ε α : Type} [DecidableEq ε] [DecidableEq α] : DecidableEq (Except ε α) := fun x y => by
  cases x <;> cases y
  case error.error a b =>
    exact if h : a = b then isTrue (by rw [h]) else isFalse (by simp [h])
  case error.ok a b => exact isFalse (by simp)
  case ok.error a b => exact isFalse (by simp)
  case ok.ok a b =>
    exact if h : a = b then isTrue (by rw [h]) else isFalse (by simp [h])

/-- An HTTP response as the TFS client observes it: status code, optional
`Location` header (absent also when the header value is not valid text,
which the code folds into absence), and the body; `none` stands for a body
whose read fails with an I/O error. -/
structure HttpResponse where
  status : Nat
  location : Option String
  body : Option String
deriving DecidableEq

/-- A transport-level reqwest error, reduced to the two flags the
`From<reqwest::Error>` conversion inspects. -/
structure ReqwestError where
  isTimeout : Bool
  isServerError : Bool
deriving DecidableEq

/-- Embedding of `From<reqwest::Error> for TfsError` (src/tfs.rs). -/
def tfsErrorOfReqwest (e : ReqwestError) : TfsError :=
  if e.isTimeout then .RequestTimedOut
  else if e.isServerError then .TfsInternalServerError
  else .OtherRequestError

/-- `StatusCode::is_success`. -/
def statusIsSuccess (s : Nat) : Bool := 200 ≤ s && s < 300

/-- Embedding of `is_tfs_signin_redirect` (src/tfs.rs): a 302 (FOUND)
status whose `Location` header contains `/_signin`. -/
def is_tfs_signin_redirect (r : HttpResponse) : Bool :=
  match r.location with
  | some loc => r.status == 302 && strContains loc "/_signin"
  | none => false

/-- Embedding of `parse_date` (src/tfs.rs): RFC 3339 parse, then
`"<timestamp><subsec-millis zero-padded to 3>"`. -/
def parse_date (date_string : String) : Except TfsError String :=
  match parseRFC3339 date_string with
  | some d => .ok (intRepr d.secs ++ pad3 d.millis)
  | none => .error (.DateStringCannotBeParsed date_string)

/-- One external interaction of the program, recorded in traces in
evaluation order. -/
inductive Event where
  | svnCmd (args : List String)
  | gitCmd (args : List String)
  | envRead (name : String)
  | tfsHttpRequest (token : AccessToken)
  | logTfsError (e : TfsError)
deriving DecidableEq

/-- The external world a run interacts with: the outcome of each
subprocess invocation (`Except` message on non-zero exit or spawn
failure, mirroring `utils::run`), the process environment, and the HTTP
transport. -/
structure World where
  runSvn : List String → Except String String
  runGit : List String → Except String String
  env : String → Option String
  send : String → AccessToken → Except ReqwestError HttpResponse

namespace Svn

/-- Embedding of `Svn::svn` (src/svn.rs): run `svn` with the given
arguments, `Some stdout` on success, `None` (after logging) on failure. -/
def svn (w : World) (args : List String) : Option String × List Event :=
  (match w.runSvn args with
   | .ok stdout => some stdout
   | .error _ => none,
   [.svnCmd args])

/-- Embedding of `Svn::is_svn` (src/svn.rs): `svn info` succeeded and its
output contains `URL:`. -/
def is_svn (w : World) : Bool × List Event :=
  match svn w ["info"] with
  | (some stdout, t) => (strContains stdout "URL:", t)
  | (none, t) => (false, t)

/-- Embedding of `Svn::branch` (src/svn.rs). -/
def branch (w : World) : Option String × List Event :=
  match is_svn w with
  | (false, t1) => (none, t1)
  | (true, t1) =>
    match svn w ["info", "--show-item", "url"] with
    | (opt_url, t2) => (opt_url.bind fun url => extract_branch_from_url url, t1 ++ t2)

/-- Embedding of `Svn::branch_from_environment` (src/svn.rs): read
`SVN_URL` and apply the same URL-to-branch extraction. -/
def branch_from_environment (w : World) : Option String × List Event :=
  ((w.env "SVN_URL").bind fun url => extract_branch_from_url url, [.envRead "SVN_URL"])

/-- Embedding of `Svn::timestamp` (src/svn.rs): if in SVN, read the
last-changed date, trim it, parse it, and format `"<seconds>000"`. -/
def timestamp (w : World) : Option String × List Event :=
  match is_svn w with
  | (false, t1) => (none, t1)
  | (true, t1) =>
    match svn w ["info", "--show-item", "last-changed-date"] with
    | (o, t2) =>
      ((o.map fun s => trimStr s).bind
        (fun ds => (svn_date_string_to_timestamp ds).map fun ts => intRepr ts ++ "000"),
       t1 ++ t2)

end Svn

namespace Git

/-- Embedding of `Git::git` (src/git.rs). -/
def git (w : World) (args : List String) : Option String × List Event :=
  (match w.runGit args with
   | .ok stdout => some stdout
   | .error _ => none,
   [.gitCmd args])

/-- Embedding of `Git::is_git` (src/git.rs): output of
`git rev-parse --is-inside-work-tree` trims to exactly `true`. -/
def is_git (w : World) : Bool × List Event :=
  match git w ["rev-parse", "--is-inside-work-tree"] with
  | (some stdout, t) => (trimStr stdout == "true", t)
  | (none, t) => (false, t)

/-- Embedding of `Git::head_timestamp` (src/git.rs): the raw output of
`git --no-pager log -n1 --format=%ct000`. -/
def head_timestamp (w : World) : Option String × List Event :=
  match is_git w with
  | (false, t1) => (none, t1)
  | (true, t1) =>
    match git w ["--no-pager", "log", "-n1", "--format=%ct000"] with
    | (o, t2) => (o, t1 ++ t2)

/-- Embedding of `Git::guess_branch` (src/git.rs). -/
def guess_branch (w : World) : Option String × List Event :=
  match is_git w with
  | (false, t1) => (none, t1)
  | (true, t1) =>
    match git w ["branch", "--contains"] with
    | (o, t2) => (o.bind fun branch_text => extract_single_branch branch_text, t1 ++ t2)

end Git

namespace Tfs

/-- Embedding of `Tfs::create_changeset_url` (src/tfs.rs). -/
def create_changeset_url (collection_uri teamproject changeset : String) : String :=
  collection_uri ++ "/" ++ teamproject ++ "/_apis/tfvc/changesets/" ++ changeset

/-- Embedding of `Tfs::get_access_token` (src/tfs.rs): read
`SYSTEM_ACCESSTOKEN`, absence is the hard error `AccessTokenNotProvided`. -/
def get_access_token (w : World) : Except TfsError String × List Event :=
  (match w.env "SYSTEM_ACCESSTOKEN" with
   | some token => .ok token
   | none => .error .AccessTokenNotProvided,
   [.envRead "SYSTEM_ACCESSTOKEN"])

/-- Embedding of `Tfs::request` (src/tfs.rs): send the request (recorded
as a trace event), then classify: transport errors via the `From`
conversion, then the sign-in redirect, then any non-success status. -/
def request (w : World) (url : String) (access_token : AccessToken) :
    Except TfsError HttpResponse × List Event :=
  (match w.send url access_token with
   | .error e => .error (tfsErrorOfReqwest e)
   | .ok response =>
     if is_tfs_signin_redirect response then .error .InvalidAccessToken
     else if !statusIsSuccess response.status then
       .error (.RequestStatusNotSuccessful response.status url)
     else .ok response,
   [.tfsHttpRequest access_token])

/-- Embedding of `Tfs::parse_response` (src/tfs.rs): read the body, then
parse it as JSON with a `createdDate` field.  `jp` stands for
`serde_json::from_str::<ChangesetResponse>`, returning the `createdDate`
field when the body parses. -/
def parse_response (jp : String → Option String) (response : HttpResponse) :
    Except TfsError String :=
  match response.body with
  | none => .error .CannotReadRequestBody
  | some str =>
    match jp str with
    | none => .error (.JsonParseFailed str)
    | some created_date => .ok created_date

/-- Embedding of `Tfs::timestamp_or_error` (src/tfs.rs): build the URL,
resolve the access token (personal token first, else OAuth from the
environment), request, parse the response, parse the date. -/
def timestamp_or_error (w : World) (jp : String → Option String)
    (collection_uri teamproject changeset : String)
    (personal_access_token : Option String) : Except TfsError String × List Event :=
  let url := create_changeset_url collection_uri teamproject changeset
  let tok : Except TfsError AccessToken × List Event :=
    match personal_access_token with
    | some token => (.ok (.Personal token), [])
    | none =>
      match get_access_token w with
      | (r, t) => (r.map .Oauth, t)
  match tok with
  | (.error e, t1) => (.error e, t1)
  | (.ok access_token, t1) =>
    match request w url access_token with
    | (r, t2) =>
      (match r with
       | .error e => .error e
       | .ok response =>
         match parse_response jp response with
         | .error e => .error e
         | .ok created_date => parse_date created_date,
       t1 ++ t2)

/-- Embedding of `Tfs::timestamp` (src/tfs.rs): the three precondition
variables short-circuit to absence; an error from `timestamp_or_error` is
logged (recorded as a `logTfsError` event) and mapped to absence. -/
def timestamp (w : World) (jp : String → Option String)
    (personal_access_token : Option String) : Option String × List Event :=
  match w.env "SYSTEM_TEAMPROJECTID" with
  | none => (none, [.envRead "SYSTEM_TEAMPROJECTID"])
  | some teamproject =>
  match w.env "BUILD_SOURCEVERSION" with
  | none => (none, [.envRead "SYSTEM_TEAMPROJECTID", .envRead "BUILD_SOURCEVERSION"])
  | some changeset =>
  match w.env "SYSTEM_TEAMFOUNDATIONCOLLECTIONURI" with
  | none => (none, [.envRead "SYSTEM_TEAMPROJECTID", .envRead "BUILD_SOURCEVERSION",
                    .envRead "SYSTEM_TEAMFOUNDATIONCOLLECTIONURI"])
  | some collection_uri =>
    match timestamp_or_error w jp collection_uri teamproject changeset personal_access_token with
    | (.ok ts, t) =>
      (some ts,
       [.envRead "SYSTEM_TEAMPROJECTID", .envRead "BUILD_SOURCEVERSION",
        .envRead "SYSTEM_TEAMFOUNDATIONCOLLECTIONURI"] ++ t)
    | (.error e, t) =>
      (none,
       [.envRead "SYSTEM_TEAMPROJECTID", .envRead "BUILD_SOURCEVERSION",
        .envRead "SYSTEM_TEAMFOUNDATIONCOLLECTIONURI"] ++ t ++ [.logTfsError e])

end Tfs

namespace App

/-- The fixed list of environment variables `App::branch_from_environment`
(src/app.rs) consults, in source order. -/
def branchEnvVars : List String :=
  ["BRANCH", "branch", "GIT_BRANCH", "build_branch", "BUILD_BRANCH", "BRANCH_NAME",
   "BUILD_SOURCEBRANCHNAME", "CIRCLE_BRANCH", "TRAVIS_BRANCH", "BITBUCKET_BRANCH",
   "CI_MERGE_REQUEST_SOURCE_BRANCH_NAME", "CI_COMMIT_REF_NAME",
   "APPVEYOR_PULL_REQUEST_HEAD_REPO_BRANCH", "APPVEYOR_REPO_BRANCH"]

/-- Embedding of `App::branch_from_environment` (src/app.rs): the chain of
`Option::or` over the variables in source order.  Every lookup is
evaluated (and logged by the wrapped reader), hence every name appears in
the trace. -/
def branch_from_environment (w : World) : Option String × List Event :=
  let value :=
    (w.env "BRANCH").or (w.env "branch")
      |>.or (w.env "GIT_BRANCH")
      |>.or (w.env "build_branch")
      |>.or (w.env "BUILD_BRANCH")
      |>.or (w.env "BRANCH_NAME")
      |>.or (w.env "BUILD_SOURCEBRANCHNAME")
      |>.or (w.env "CIRCLE_BRANCH")
      |>.or (w.env "TRAVIS_BRANCH")
      |>.or (w.env "BITBUCKET_BRANCH")
      |>.or (w.env "CI_MERGE_REQUEST_SOURCE_BRANCH_NAME")
      |>.or (w.env "CI_COMMIT_REF_NAME")
      |>.or (w.env "APPVEYOR_PULL_REQUEST_HEAD_REPO_BRANCH")
      |>.or (w.env "APPVEYOR_REPO_BRANCH")
  (value, branchEnvVars.map Event.envRead)

/-- Embedding of `App::branch_from_svn` (src/app.rs):
`svn.branch().or(svn.branch_from_environment())`; both operands are
evaluated (Rust's `Option::or` takes its argument by value). -/
def branch_from_svn (w : World) : Option String × List Event :=
  match Svn.branch w, Svn.branch_from_environment w with
  | (a, t1), (b, t2) => (a.or b, t1 ++ t2)

/-- Embedding of `App::guess_branch_from_git` (src/app.rs). -/
def guess_branch_from_git (w : World) : Option String × List Event :=
  Git.guess_branch w

/-- Embedding of `App::guess_branch` (src/app.rs):
`branch_from_svn().or(branch_from_environment()).or(guess_branch_from_git())`;
all three sources are evaluated on every invocation. -/
def guess_branch (w : World) : Option String × List Event :=
  match branch_from_svn w, branch_from_environment w, guess_branch_from_git w with
  | (a, t1), (b, t2), (c, t3) => ((a.or b).or c, t1 ++ t2 ++ t3)

/-- Embedding of `App::guess_timestamp` (src/app.rs): the SVN, Git and TFS
timestamps are all computed (the source binds all three to locals), then
combined with `Option::or`. -/
def guess_timestamp (w : World) (jp : String → Option String)
    (tfs_personal_access_token : Option String) : Option String × List Event :=
  match Svn.timestamp w, Git.head_timestamp w,
        Tfs.timestamp w jp tfs_personal_access_token with
  | (svn_timestamp, t1), (git_timestamp, t2), (tfs_timestamp, t3) =>
    ((svn_timestamp.or git_timestamp).or tfs_timestamp, t1 ++ t2 ++ t3)

end App

/-- Embedding of the decision logic of `main` (src/main.rs): the branch is
the `--branch` flag if given, else `guess_branch()` (this `or_else` is
lazy); the timestamp is always `guess_timestamp()`.  `some (branch, ts)`
is a successful run, `none` is the panic with a non-zero exit status. -/
def main_resolve (w : World) (jp : String → Option String)
    (branch_flag tfs_personal_access_token : Option String) :
    Option (String × String) × List Event :=
  let ob : Option String × List Event :=
    match branch_flag with
    | some b => (some b, [])
    | none => App.guess_branch w
  match ob, App.guess_timestamp w jp tfs_personal_access_token with
  | (opt_branch, t1), (opt_timestamp, t2) =>
    (match opt_branch, opt_timestamp with
     | some b, some t => some (b, t)
     | _, _ => none,
     t1 ++ t2)

/-! Helper worlds used by concrete witnesses. -/

/-- A world in which every subprocess fails, no environment variable is
set and the network is down, except for the supplied environment. -/
def envOnly (f : String → Option String) : World :=
  { runSvn := fun _ => .error "svn failed"
    runGit := fun _ => .error "git failed"
    env := f
    send := fun _ _ => .error { isTimeout := false, isServerError := false } }

/-- The empty environment world. -/
def wEmpty : World := envOnly fun _ => none

/-- A world providing only `GIT_BRANCH=the-branch`. -/
def wGitBranchEnv : World := envOnly fun n => if n = "GIT_BRANCH" then some "the-branch" else none

/-- An inert stand-in for serde_json parsing that never succeeds. -/
def jpNone : String → Option String := fun _ => none

/-- A world with an SVN working copy on trunk: used as concrete witness
input. -/
def wSvnTrunk : World :=
  { runSvn := fun args =>
      if args = ["info"] then .ok "Path: .\nURL: https://svn.com/repo/trunk\n"
      else if args = ["info", "--show-item", "url"] then .ok "https://svn.com/repo/trunk"
      else if args = ["info", "--show-item", "last-changed-date"] then
        .ok "2019-08-06T14:13:34.879966Z\n"
      else .error "unexpected svn invocation"
    runGit := fun _ => .error "git failed"
    env := fun _ => none
    send := fun _ _ => .error { isTimeout := false, isServerError := false } }

/-- A sign-in redirect response. -/
def respRedirect : HttpResponse :=
  { status := 302, location := some "https://tfs.example/_signin?x", body := some "" }

/-- A world whose network always answers with the sign-in redirect. -/
def wRedirect : World :=
  { runSvn := fun _ => .error "svn failed"
    runGit := fun _ => .error "git failed"
    env := fun _ => none
    send := fun _ _ => .ok respRedirect }

/-- A world with the three TFS precondition variables set and nothing
else, network down. -/
def wTfsVars : World :=
  { runSvn := fun _ => .error "svn failed"
    runGit := fun _ => .error "git failed"
    env := fun n =>
      if n = "SYSTEM_TEAMPROJECTID" then some "proj"
      else if n = "BUILD_SOURCEVERSION" then some "42"
      else if n = "SYSTEM_TEAMFOUNDATIONCOLLECTIONURI" then some "https://tfs.example"
      else none
    send := fun _ _ => .error { isTimeout := false, isServerError := false } }

/-- A world with an SVN working copy on trunk and the TFS environment
fully configured. -/
def wSvnTfs : World :=
  { runSvn := fun args =>
      if args = ["info"] then .ok "Path: .\nURL: https://svn.com/repo/trunk\n"
      else if args = ["info", "--show-item", "url"] then .ok "https://svn.com/repo/trunk"
      else if args = ["info", "--show-item", "last-changed-date"] then
        .ok "2019-08-06T14:13:34.879966Z\n"
      else .error "unexpected svn invocation"
    runGit := fun _ => .error "git failed"
    env := fun n =>
      if n = "SYSTEM_TEAMPROJECTID" then some "proj"
      else if n = "BUILD_SOURCEVERSION" then some "42"
      else if n = "SYSTEM_TEAMFOUNDATIONCOLLECTIONURI" then some "https://tfs.example"
      else if n = "SYSTEM_ACCESSTOKEN" then some "secret"
      else none
    send := fun _ _ => .error { isTimeout := false, isServerError := false } }

/-- Specification-side view of the claim's literal `/branches/<name>/` and
`/tags/<name>/` patterns, which require a terminating slash after the
name. -/
def segSlashAt (kw tail name : List Char) : Prop :=
  name ≠ [] ∧ (∀ c ∈ name, c ≠ '/') ∧ (kw ++ name ++ ['/']) <+: tail

/-- A slash-terminated `/branches/<name>/` or `/tags/<name>/` segment
starts at position `i`. -/
def branchSegSlashAt (cs : List Char) (i : Nat) (name : List Char) : Prop :=
  segSlashAt "/branches/".data (cs.drop i) name ∨ segSlashAt "/tags/".data (cs.drop i) name

instance (kw tail name : List Char) : Decidable (segSlashAt kw tail name) := by
  unfold segSlashAt
  infer_instance

instance (cs : List Char) (i : Nat) (name : List Char) :
    Decidable (branchSegSlashAt cs i name) := by
  unfold branchSegSlashAt
  infer_instance

/-- The C3 claim as stated: any URL containing a slash-terminated
branches/tags segment yields its name, any URL containing a trunk segment
yields `trunk`, and any URL containing neither yields absence. -/
def C3_claim : Prop :=
  (∀ (url : String) (name : List Char) (i : Nat), branchSegSlashAt url.data i name →
     extract_branch_from_url url = some (String.mk name)) ∧
  (∀ (url : String) (i : Nat), trunkSegAt url.data i →
     extract_branch_from_url url = some "trunk") ∧
  (∀ url : String, (∀ i name, ¬ branchSegSlashAt url.data i name) →
     (∀ i, ¬ trunkSegAt url.data i) → extract_branch_from_url url = none)

/-- The claim C1 as stated, specialised to its two concrete consequences:
once the SVN probe yields a timestamp no Git command runs and no TFS
request is sent during timestamp resolution, and once the SVN probe
yields a branch no CI environment variable is read and no Git command
runs during branch resolution. -/
def C1_claim : Prop :=
  ∀ (w : World) (jp : String → Option String) (pat : Option String),
    ((Svn.timestamp w).fst.isSome →
       (∀ args, Event.gitCmd args ∉ (App.guess_timestamp w jp pat).snd) ∧
       (∀ tok, Event.tfsHttpRequest tok ∉ (App.guess_timestamp w jp pat).snd)) ∧
    ((Svn.branch w).fst.isSome →
       (∀ n ∈ App.branchEnvVars, Event.envRead n ∉ (App.guess_branch w).snd) ∧
       (∀ args, Event.gitCmd args ∉ (App.guess_branch w).snd))

/-! Generic facts about eager option-or chains. -/

theorem foldl_or_start {α : Type} (l : List (Option α)) (a : Option α) :
    l.foldl Option.or a = a.or (l.foldl Option.or none) := by
  induction l generalizing a with
  | nil => simp [Option.or_none]
  | cons x l ih =>
    simp only [List.foldl_cons]
    rw [ih (a.or x), ih (Option.none.or x), Option.none_or, Option.or_assoc]

theorem foldl_or_findSome {α : Type} (f : String → Option α) (l : List String) :
    (l.map f).foldl Option.or none = l.findSome? f := by
  induction l with
  | nil => rfl
  | cons n l ih =>
    rw [List.map_cons, List.foldl_cons, Option.none_or, foldl_or_start, ih,
      List.findSome?_cons]
    cases f n <;> simp [Option.or_some, Option.none_or]

/-- C9: for every environment mapping, `branch_from_environment` returns
the value of the first set variable in the fixed documented order
(`BRANCH`, `branch`, `GIT_BRANCH`, ..., `APPVEYOR_REPO_BRANCH`), and
absence when none is set; an environment providing only
`GIT_BRANCH=the-branch` yields `the-branch` and an empty environment
yields absence. -/
theorem C9_branch_from_environment :
    (∀ w : World, (App.branch_from_environment w).fst = App.branchEnvVars.findSome? w.env) ∧
    (∀ w : World, w.env "GIT_BRANCH" = some "the-branch" →
      (∀ n, n ≠ "GIT_BRANCH" → w.env n = none) →
      (App.branch_from_environment w).fst = some "the-branch") ∧
    (∀ w : World, (∀ n, w.env n = none) →
      (App.branch_from_environment w).fst = none) := by
  have key : ∀ w : World,
      (App.branch_from_environment w).fst = App.branchEnvVars.findSome? w.env := by
    intro w
    rw [← foldl_or_findSome]
    simp only [App.branch_from_environment, App.branchEnvVars, List.map_cons, List.map_nil,
      List.foldl_cons, List.foldl_nil, Option.none_or]
  refine ⟨key, fun w hg hn => ?_, fun w h => ?_⟩
  · rw [key w]
    simp only [App.branchEnvVars, List.findSome?_cons, List.findSome?_nil,
      hg, hn "BRANCH" (by decide), hn "branch" (by decide)]
  · rw [key w]
    simp only [App.branchEnvVars, List.findSome?_cons, List.findSome?_nil, h]

/-- Witness for C9 at two concrete environments. -/
theorem C9_witness :
    (App.branch_from_environment wGitBranchEnv).fst = some "the-branch" ∧
    (App.branch_from_environment wEmpty).fst = none :=
  ⟨C9_branch_from_environment.2.1 wGitBranchEnv rfl (fun _ hn => if_neg hn),
   C9_branch_from_environment.2.2 wEmpty fun _ => rfl⟩

/-- C8: `preprocess_branch_text` strips the leading star marker and
whitespace from each line and discards detached-HEAD lines;
`extract_single_branch` returns the single remaining branch exactly when
exactly one line remains, and absence otherwise; with the example
behaviours from the spec. -/
theorem C8_git_branch_guess :
    (∀ text b, Git.extract_single_branch text = some b ↔
       Git.preprocess_branch_text text = [b]) ∧
    (∀ text, (Git.preprocess_branch_text text).length ≠ 1 →
       Git.extract_single_branch text = none) ∧
    (∀ text, ∀ l ∈ Git.preprocess_branch_text text, strContains l "HEAD detached" = false) ∧
    Git.extract_single_branch "* master" = some "master" ∧
    Git.extract_single_branch "* master\nbranch" = none ∧
    Git.extract_single_branch "* (HEAD detached at 6f9a90e36e6)\nmaster" = some "master" := by
  refine ⟨fun text b => ?_, fun text h => ?_, fun text l hl => ?_, by decide, by decide, by decide⟩
  · unfold Git.extract_single_branch
    rcases Git.preprocess_branch_text text with _ | ⟨x, _ | ⟨y, l⟩⟩ <;> simp
  · unfold Git.extract_single_branch
    rcases hEq : Git.preprocess_branch_text text with _ | ⟨x, _ | ⟨y, l⟩⟩ <;> simp_all
  · unfold Git.preprocess_branch_text at hl
    rcases List.mem_filter.mp hl with ⟨-, h2⟩
    simpa using h2

/-- Witness for C8: the ambiguous two-branch listing. -/
theorem C8_witness :
    (Git.preprocess_branch_text "a\nb").length ≠ 1 ∧
    Git.extract_single_branch "a\nb" = none :=
  ⟨by decide, C8_git_branch_guess.2.1 "a\nb" (by decide)⟩

/-- Value component of `App::guess_branch`: the eager or-chain of the
three sources. -/
theorem guess_branch_fst (w : World) :
    (App.guess_branch w).fst =
      ((App.branch_from_svn w).fst.or (App.branch_from_environment w).fst).or
        (App.guess_branch_from_git w).fst := rfl

/-- Value component of `App::guess_timestamp`: the eager or-chain of the
three sources. -/
theorem guess_timestamp_fst (w : World) (jp : String → Option String) (pat : Option String) :
    (App.guess_timestamp w jp pat).fst =
      ((Svn.timestamp w).fst.or (Git.head_timestamp w).fst).or
        (Tfs.timestamp w jp pat).fst := rfl

/-- C2: the resolved values respect the fixed priority order: the first
present value wins among (SVN branch, environment branch, Git guess) and
among (SVN timestamp, Git timestamp, TFS timestamp), and each resolution
is absent exactly when all of its sources are absent. -/
theorem C2_priority_order :
    ∀ (w : World) (jp : String → Option String) (pat : Option String),
    ((∀ b, (App.branch_from_svn w).fst = some b → (App.guess_branch w).fst = some b) ∧
     ((App.branch_from_svn w).fst = none → ∀ b,
        (App.branch_from_environment w).fst = some b → (App.guess_branch w).fst = some b) ∧
     ((App.branch_from_svn w).fst = none → (App.branch_from_environment w).fst = none →
        (App.guess_branch w).fst = (App.guess_branch_from_git w).fst) ∧
     ((App.guess_branch w).fst = none ↔
        (App.branch_from_svn w).fst = none ∧ (App.branch_from_environment w).fst = none ∧
          (App.guess_branch_from_git w).fst = none)) ∧
    ((∀ t, (Svn.timestamp w).fst = some t → (App.guess_timestamp w jp pat).fst = some t) ∧
     ((Svn.timestamp w).fst = none → ∀ t,
        (Git.head_timestamp w).fst = some t → (App.guess_timestamp w jp pat).fst = some t) ∧
     ((Svn.timestamp w).fst = none → (Git.head_timestamp w).fst = none →
        (App.guess_timestamp w jp pat).fst = (Tfs.timestamp w jp pat).fst) ∧
     ((App.guess_timestamp w jp pat).fst = none ↔
        (Svn.timestamp w).fst = none ∧ (Git.head_timestamp w).fst = none ∧
          (Tfs.timestamp w jp pat).fst = none)) := by
  intro w jp pat
  rw [guess_branch_fst w, guess_timestamp_fst w jp pat]
  constructor
  · refine ⟨fun b hb => ?_, fun h1 b hb => ?_, fun h1 h2 => ?_, ?_⟩
    · simp [hb, Option.or_some]
    · simp [h1, hb, Option.none_or, Option.or_some]
    · simp [h1, h2, Option.none_or]
    · simp [Option.or_eq_none, and_assoc]
  · refine ⟨fun t ht => ?_, fun h1 t ht => ?_, fun h1 h2 => ?_, ?_⟩
    · simp [ht, Option.or_some]
    · simp [h1, ht, Option.none_or, Option.or_some]
    · simp [h1, h2, Option.none_or]
    · simp [Option.or_eq_none, and_assoc]


/-- Witness for C2 at a concrete SVN-on-trunk world. -/
theorem C2_witness :
    (App.guess_branch wSvnTrunk).fst = some "trunk" ∧
    (App.guess_timestamp wSvnTrunk jpNone none).fst = some "1565100814000" :=
  ⟨((C2_priority_order wSvnTrunk jpNone none).1).1 "trunk" (by decide),
   ((C2_priority_order wSvnTrunk jpNone none).2).1 "1565100814000" (by decide)⟩

/-! Trace-shape lemmas for the TFS client. -/

theorem tfs_snd_personal (w : World) (jp : String → Option String) (cu tp cs t : String) :
    (Tfs.timestamp_or_error w jp cu tp cs (some t)).snd =
      [.tfsHttpRequest (.Personal t)] := rfl

theorem tfs_snd_oauth (w : World) (jp : String → Option String) (cu tp cs o : String)
    (h : w.env "SYSTEM_ACCESSTOKEN" = some o) :
    (Tfs.timestamp_or_error w jp cu tp cs none).snd =
      [.envRead "SYSTEM_ACCESSTOKEN", .tfsHttpRequest (.Oauth o)] := by
  unfold Tfs.timestamp_or_error Tfs.get_access_token
  rw [h]
  rfl

theorem tfs_no_token (w : World) (jp : String → Option String) (cu tp cs : String)
    (h : w.env "SYSTEM_ACCESSTOKEN" = none) :
    Tfs.timestamp_or_error w jp cu tp cs none =
      (.error .AccessTokenNotProvided, [.envRead "SYSTEM_ACCESSTOKEN"]) := by
  unfold Tfs.timestamp_or_error Tfs.get_access_token
  rw [h]
  rfl

theorem tfs_timestamp_eq (w : World) (jp : String → Option String) (pat : Option String)
    (tp cs cu : String)
    (h1 : w.env "SYSTEM_TEAMPROJECTID" = some tp)
    (h2 : w.env "BUILD_SOURCEVERSION" = some cs)
    (h3 : w.env "SYSTEM_TEAMFOUNDATIONCOLLECTIONURI" = some cu) :
    Tfs.timestamp w jp pat =
      ((Tfs.timestamp_or_error w jp cu tp cs pat).fst.toOption,
       [.envRead "SYSTEM_TEAMPROJECTID", .envRead "BUILD_SOURCEVERSION",
        .envRead "SYSTEM_TEAMFOUNDATIONCOLLECTIONURI"] ++
         (Tfs.timestamp_or_error w jp cu tp cs pat).snd ++
         (match (Tfs.timestamp_or_error w jp cu tp cs pat).fst with
          | .ok _ => []
          | .error e => [.logTfsError e])) := by
  unfold Tfs.timestamp
  rw [h1, h2, h3]
  rcases h : Tfs.timestamp_or_error w jp cu tp cs pat with ⟨r, t⟩
  cases r <;> simp [Except.toOption, h]

/-- C5: TFS response classification happens in a fixed order: a 302 whose
`Location` contains `/_signin` yields `InvalidAccessToken`; otherwise any
non-success status yields an error carrying the status and the request
URL; otherwise a body that fails to parse as JSON with a `createdDate`
field yields the unparseable-response error; only a parsed `createdDate`
proceeds to date parsing. -/
theorem C5_response_classification :
    ∀ (w : World) (url : String) (tok : AccessToken) (resp : HttpResponse)
      (jp : String → Option String),
    w.send url tok = .ok resp →
    ((is_tfs_signin_redirect resp = true →
        (Tfs.request w url tok).fst = .error .InvalidAccessToken) ∧
     (is_tfs_signin_redirect resp = false → statusIsSuccess resp.status = false →
        (Tfs.request w url tok).fst = .error (.RequestStatusNotSuccessful resp.status url)) ∧
     (is_tfs_signin_redirect resp = false → statusIsSuccess resp.status = true →
        (Tfs.request w url tok).fst = .ok resp) ∧
     (∀ s, resp.body = some s → jp s = none →
        Tfs.parse_response jp resp = .error (.JsonParseFailed s)) ∧
     (∀ s cd, resp.body = some s → jp s = some cd →
        Tfs.parse_response jp resp = .ok cd) ∧
     (∀ cu tp cs t s cd, w.send (Tfs.create_changeset_url cu tp cs) (.Personal t) = .ok resp →
        is_tfs_signin_redirect resp = false → statusIsSuccess resp.status = true →
        resp.body = some s → jp s = some cd →
        (Tfs.timestamp_or_error w jp cu tp cs (some t)).fst = parse_date cd)) := by
  intro w url tok resp jp hsend
  have hreq : ∀ (u : String) (tk : AccessToken), w.send u tk = .ok resp →
      (Tfs.request w u tk).fst =
        (if is_tfs_signin_redirect resp then .error .InvalidAccessToken
         else if !statusIsSuccess resp.status then
           .error (.RequestStatusNotSuccessful resp.status u)
         else .ok resp) := by
    intro u tk h
    unfold Tfs.request
    rw [h]
  refine ⟨fun h1 => ?_, fun h1 h2 => ?_, fun h1 h2 => ?_, fun s hb hj => ?_,
          fun s cd hb hj => ?_, fun cu tp cs t s cd hsend2 h1 h2 hb hj => ?_⟩
  · rw [hreq url tok hsend, if_pos h1]
  · rw [hreq url tok hsend, if_neg (by simp [h1]), if_pos (by simp [h2])]
  · rw [hreq url tok hsend, if_neg (by simp [h1]), if_neg (by simp [h2])]
  · simp [Tfs.parse_response, hb, hj]
  · simp [Tfs.parse_response, hb, hj]
  · unfold Tfs.timestamp_or_error
    have hfst := hreq (Tfs.create_changeset_url cu tp cs) (.Personal t) hsend2
    rw [if_neg (by simp [h1]), if_neg (by simp [h2])] at hfst
    simp [hfst, Tfs.parse_response, hb, hj]


/-- Witness for C5: the sign-in redirect is classified as an invalid
access token. -/
theorem C5_witness :
    (Tfs.request wRedirect "u" (.Personal "t")).fst = .error .InvalidAccessToken :=
  ((C5_response_classification wRedirect "u" (.Personal "t") respRedirect jpNone rfl).1
    (by decide))

/-- C6: the TFS backend returns absence (performing no request and
logging no error) when any of the three precondition variables is unset;
given all three, a caller-supplied personal access token is the only
token ever sent, otherwise the OAuth token read from `SYSTEM_ACCESSTOKEN`
is sent, and absence of that variable with no personal token is the hard
error `AccessTokenNotProvided` (the spec's `AccessTokenMissing`). -/
theorem C6_tfs_preconditions_and_token :
    ∀ (w : World) (jp : String → Option String) (pat : Option String),
    ((w.env "SYSTEM_TEAMPROJECTID" = none ∨ w.env "BUILD_SOURCEVERSION" = none ∨
        w.env "SYSTEM_TEAMFOUNDATIONCOLLECTIONURI" = none) →
      (Tfs.timestamp w jp pat).fst = none ∧
      (∀ tok, Event.tfsHttpRequest tok ∉ (Tfs.timestamp w jp pat).snd) ∧
      (∀ e, Event.logTfsError e ∉ (Tfs.timestamp w jp pat).snd)) ∧
    (∀ tp cs cu, w.env "SYSTEM_TEAMPROJECTID" = some tp →
      w.env "BUILD_SOURCEVERSION" = some cs →
      w.env "SYSTEM_TEAMFOUNDATIONCOLLECTIONURI" = some cu →
      ((∀ t tok, pat = some t → Event.tfsHttpRequest tok ∈ (Tfs.timestamp w jp pat).snd →
          tok = .Personal t) ∧
       (∀ o, pat = none → w.env "SYSTEM_ACCESSTOKEN" = some o →
          Event.tfsHttpRequest (.Oauth o) ∈ (Tfs.timestamp w jp pat).snd) ∧
       (pat = none → w.env "SYSTEM_ACCESSTOKEN" = none →
          (Tfs.timestamp_or_error w jp cu tp cs pat).fst = .error .AccessTokenNotProvided ∧
          Event.logTfsError .AccessTokenNotProvided ∈ (Tfs.timestamp w jp pat).snd ∧
          (Tfs.timestamp w jp pat).fst = none))) := by
  intro w jp pat
  constructor
  · intro habs
    unfold Tfs.timestamp
    rcases h1 : w.env "SYSTEM_TEAMPROJECTID" with _ | tp
    · simp
    · rcases h2 : w.env "BUILD_SOURCEVERSION" with _ | cs
      · simp
      · rcases h3 : w.env "SYSTEM_TEAMFOUNDATIONCOLLECTIONURI" with _ | cu
        · simp
        · rw [h1, h2, h3] at habs
          simp at habs
  · intro tp cs cu h1 h2 h3
    rw [tfs_timestamp_eq w jp pat tp cs cu h1 h2 h3]
    refine ⟨fun t tok hpat hmem => ?_, fun o hpat ho => ?_, fun hpat ho => ?_⟩
    · subst hpat
      rcases hfst : (Tfs.timestamp_or_error w jp cu tp cs (some t)).fst with e | v <;>
        rw [tfs_snd_personal, hfst] at hmem <;> simpa using hmem
    · subst hpat
      rw [tfs_snd_oauth w jp cu tp cs o ho]
      simp
    · subst hpat
      rw [tfs_no_token w jp cu tp cs ho]
      exact ⟨rfl, by simp, by simp [Except.toOption]⟩


/-- Witness for C6: an empty environment yields absence without a request,
and with the precondition variables set but no token the hard error is
produced. -/
theorem C6_witness :
    (Tfs.timestamp wEmpty jpNone none).fst = none ∧
    (Tfs.timestamp_or_error wTfsVars jpNone "https://tfs.example" "proj" "42" none).fst =
      .error .AccessTokenNotProvided :=
  ⟨((C6_tfs_preconditions_and_token wEmpty jpNone none).1 (Or.inl rfl)).1,
   (((C6_tfs_preconditions_and_token wTfsVars jpNone none).2 "proj" "42" "https://tfs.example"
      rfl rfl rfl).2.2 rfl rfl).1⟩

/-- C7: every TFS client error is non-fatal: when the precondition
variables are set and `timestamp_or_error` fails with any error,
`Tfs::timestamp` logs the error and yields absence; and the top-level run
(without a `--branch` override) fails exactly when branch resolution or
timestamp resolution yields absence from every one of its sources. -/
theorem C7_tfs_errors_nonfatal :
    ∀ (w : World) (jp : String → Option String) (pat : Option String),
    (∀ tp cs cu e, w.env "SYSTEM_TEAMPROJECTID" = some tp →
       w.env "BUILD_SOURCEVERSION" = some cs →
       w.env "SYSTEM_TEAMFOUNDATIONCOLLECTIONURI" = some cu →
       (Tfs.timestamp_or_error w jp cu tp cs pat).fst = .error e →
       (Tfs.timestamp w jp pat).fst = none ∧
       Event.logTfsError e ∈ (Tfs.timestamp w jp pat).snd) ∧
    ((main_resolve w jp none pat).fst = none ↔
       ((App.branch_from_svn w).fst = none ∧ (App.branch_from_environment w).fst = none ∧
          (App.guess_branch_from_git w).fst = none) ∨
       ((Svn.timestamp w).fst = none ∧ (Git.head_timestamp w).fst = none ∧
          (Tfs.timestamp w jp pat).fst = none)) := by
  intro w jp pat
  constructor
  · intro tp cs cu e h1 h2 h3 herr
    rw [tfs_timestamp_eq w jp pat tp cs cu h1 h2 h3, herr]
    exact ⟨by simp [Except.toOption], by simp⟩
  · have hmain : (main_resolve w jp none pat).fst = none ↔
        (App.guess_branch w).fst = none ∨ (App.guess_timestamp w jp pat).fst = none := by
      unfold main_resolve
      rcases hb : App.guess_branch w with ⟨ob, t1⟩
      rcases ht : App.guess_timestamp w jp pat with ⟨ot, t2⟩
      cases ob <;> cases ot <;> simp
    rw [hmain, guess_branch_fst w, guess_timestamp_fst w jp pat]
    simp [Option.or_eq_none, and_assoc]

/-- Witness for C7: with the precondition variables set, no token and the
network down, the TFS error is logged and the timestamp source yields
absence; in the empty world the top-level run fails. -/
theorem C7_witness :
    ((Tfs.timestamp wTfsVars jpNone none).fst = none ∧
      Event.logTfsError .AccessTokenNotProvided ∈ (Tfs.timestamp wTfsVars jpNone none).snd) ∧
    (main_resolve wEmpty jpNone none none).fst = none :=
  ⟨(C7_tfs_errors_nonfatal wTfsVars jpNone none).1 "proj" "42" "https://tfs.example"
      .AccessTokenNotProvided rfl rfl rfl (by decide),
   (C7_tfs_errors_nonfatal wEmpty jpNone none).2.mpr (Or.inl (by decide))⟩

/-! Decimal representation lemmas. -/

theorem charVal_ofNat (d : Nat) (h : d < 10) : charVal (Char.ofNat (48 + d)) = d := by
  interval_cases d <;> decide

theorem natReprAux_eq (fuel n : Nat) (h : n ≤ fuel) :
    natReprAux fuel n = ((Nat.digits 10 n).map fun d => Char.ofNat (48 + d)).reverse := by
  induction fuel generalizing n with
  | zero =>
    have hn : n = 0 := Nat.le_zero.mp h
    subst hn
    simp [natReprAux]
  | succ f ih =>
    cases n with
    | zero => simp [natReprAux]
    | succ m =>
      have hdiv : (m + 1) / 10 ≤ f := by
        have := Nat.div_lt_self (Nat.succ_pos m) (by norm_num : 1 < 10)
        omega
      rw [natReprAux, ih ((m + 1) / 10) hdiv,
        Nat.digits_def' (by norm_num : 1 < 10) (Nat.succ_pos m)]
      simp

theorem foldrVal_eq_ofDigits (L : List Nat) :
    List.foldr (fun d a => a * 10 + d) 0 L = Nat.ofDigits 10 L := by
  induction L with
  | nil => simp [Nat.ofDigits]
  | cons d L ih => simp [Nat.ofDigits_cons, ih]; ring

theorem foldlVal_digits (L : List Nat) (hL : ∀ d ∈ L, d < 10) :
    ((L.map fun d => Char.ofNat (48 + d)).reverse).foldl (fun a c => a * 10 + charVal c) 0 =
      Nat.ofDigits 10 L := by
  rw [List.foldl_reverse, List.foldr_map, ← foldrVal_eq_ofDigits]
  induction L with
  | nil => rfl
  | cons d L ih =>
    simp only [List.foldr_cons]
    rw [ih (fun x hx => hL x (List.mem_cons_of_mem d hx)),
      charVal_ofNat d (hL d (List.mem_cons_self d L))]

theorem decNat_natRepr (n : Nat) : decNatValue (natRepr n) = n := by
  by_cases h : n = 0
  · subst h; decide
  · unfold natRepr decNatValue
    rw [if_neg h]
    show (natReprAux n n).foldl (fun a c => a * 10 + charVal c) 0 = n
    rw [natReprAux_eq n n le_rfl,
      foldlVal_digits (Nat.digits 10 n) (fun d hd => Nat.digits_lt_base (by norm_num) hd),
      Nat.ofDigits_digits]

theorem foldlVal_init (l : List Char) (a : Nat) :
    l.foldl (fun a c => a * 10 + charVal c) a =
      a * 10 ^ l.length + l.foldl (fun a c => a * 10 + charVal c) 0 := by
  induction l generalizing a with
  | nil => simp
  | cons c l ih =>
    simp only [List.foldl_cons, List.length_cons]
    rw [ih (a * 10 + charVal c), ih (0 * 10 + charVal c)]
    ring

theorem decNat_append (s t : String) :
    decNatValue (s ++ t) = decNatValue s * 10 ^ t.data.length + decNatValue t := by
  unfold decNatValue
  rw [String.data_append, List.foldl_append, foldlVal_init]

theorem natRepr_data_length (m : Nat) (h0 : m ≠ 0) :
    (natRepr m).data.length = Nat.log 10 m + 1 := by
  unfold natRepr
  rw [if_neg h0]
  show (natReprAux m m).length = _
  rw [natReprAux_eq m m le_rfl]
  simp [Nat.digits_len 10 m (by norm_num) h0]

theorem pad3_decNat (m : Nat) (h : m < 1000) :
    decNatValue (pad3 m) = m ∧ (pad3 m).data.length = 3 := by
  have hrepr := decNat_natRepr m
  have h00 : decNatValue "00" = 0 := by decide
  have h01 : decNatValue "0" = 0 := by decide
  unfold pad3
  split_ifs with h1 h2
  · constructor
    · rw [decNat_append, hrepr, h00]
      ring
    · rw [String.data_append]
      by_cases h0 : m = 0
      · subst h0; decide
      · have hlen := natRepr_data_length m h0
        have hlog : Nat.log 10 m = 0 := Nat.log_eq_zero_iff.mpr (Or.inl h1)
        rw [hlog] at hlen
        simp [hlen]
  · constructor
    · rw [decNat_append, hrepr, h01]
      ring
    · rw [String.data_append]
      have h0 : m ≠ 0 := by omega
      have hlen := natRepr_data_length m h0
      have hlog : Nat.log 10 m = 1 :=
        Nat.log_eq_of_pow_le_of_lt_pow (by norm_num; omega) (by norm_num; omega)
      rw [hlog] at hlen
      simp [hlen]
  · constructor
    · exact hrepr
    · have h0 : m ≠ 0 := by omega
      have hlen := natRepr_data_length m h0
      have hlog : Nat.log 10 m = 2 :=
        Nat.log_eq_of_pow_le_of_lt_pow (by norm_num; omega) (by norm_num; omega)
      rw [hlog] at hlen
      omega

theorem decNat_int_pad (secs : Int) (hs : 0 ≤ secs) (m : Nat) (hm : m < 1000) :
    decNatValue (intRepr secs ++ pad3 m) = secs.toNat * 1000 + m := by
  unfold intRepr
  rw [if_neg (not_lt.mpr hs), decNat_append, (pad3_decNat m hm).1, (pad3_decNat m hm).2,
    decNat_natRepr]
  norm_num

theorem charVal_lt_of_digit (c : Char) (h : isDigitCh c = true) : charVal c < 10 := by
  unfold isDigitCh at h
  simp only [Bool.and_eq_true, decide_eq_true_eq] at h
  unfold charVal
  omega

theorem foldlVal_lt (l : List Char) (h : ∀ c ∈ l, charVal c < 10) :
    l.foldl (fun a c => a * 10 + charVal c) 0 < 10 ^ l.length := by
  induction l with
  | nil => simp
  | cons c l ih =>
    simp only [List.foldl_cons, List.length_cons]
    rw [foldlVal_init]
    have h1 : charVal c < 10 := h c (List.mem_cons_self c l)
    have h2 := ih fun x hx => h x (List.mem_cons_of_mem c hx)
    have hP : 0 < 10 ^ l.length := Nat.pos_pow_of_pos l.length (by norm_num)
    calc (0 * 10 + charVal c) * 10 ^ l.length + l.foldl (fun a c => a * 10 + charVal c) 0
        < (charVal c + 1) * 10 ^ l.length := by
          have : (0 * 10 + charVal c) * 10 ^ l.length = charVal c * 10 ^ l.length := by ring
          rw [this]
          have : (charVal c + 1) * 10 ^ l.length =
              charVal c * 10 ^ l.length + 10 ^ l.length := by ring
          omega
      _ ≤ 10 * 10 ^ l.length := Nat.mul_le_mul_right (10 ^ l.length) (by omega)
      _ = 10 ^ (l.length + 1) := by rw [pow_succ]; ring

theorem fracValue_lt (ds : List Char) (h : ∀ c ∈ ds, isDigitCh c = true) :
    fracValue ds < 1000 := by
  unfold fracValue
  have hlen : (ds.take 3).length ≤ 3 := by
    rw [List.length_take]
    omega
  have hdig : ∀ c ∈ ds.take 3, charVal c < 10 := fun c hc =>
    charVal_lt_of_digit c (h c (List.take_subset 3 ds hc))
  have hv := foldlVal_lt (ds.take 3) hdig
  calc (ds.take 3).foldl (fun a c => a * 10 + charVal c) 0 * 10 ^ (3 - (ds.take 3).length)
      < 10 ^ (ds.take 3).length * 10 ^ (3 - (ds.take 3).length) :=
        Nat.mul_lt_mul_of_lt_of_le hv le_rfl
          (Nat.pos_pow_of_pos (3 - (ds.take 3).length) (by norm_num))
    _ = 10 ^ 3 := by
        rw [← pow_add]
        congr 1
        omega
    _ = 1000 := by norm_num

theorem readFrac_millis (r : List Char) (ms : Nat) (r2 : List Char)
    (h : readFrac r = some (ms, r2)) : ms < 1000 := by
  unfold readFrac at h
  split at h
  · rename_i rest
    split at h
    · exact absurd h (by simp)
    · simp only [Option.some.injEq, Prod.mk.injEq] at h
      rcases h with ⟨h1, -⟩
      subst h1
      exact fracValue_lt (rest.takeWhile isDigitCh) fun c hc => List.mem_takeWhile_imp hc
  · simp only [Option.some.injEq, Prod.mk.injEq] at h
    omega
theorem parse_millis (s : String) (d : RfcDate) (h : parseRFC3339 s = some d) :
    d.millis < 1000 := by
  unfold parseRFC3339 at h
  repeat' split at h
  all_goals try contradiction
  simp only [Option.some.injEq] at h
  subst h
  exact readFrac_millis _ _ _ (by assumption)

/-- C4: for every date string the model parser accepts, the TFS path
formats `"<epoch-seconds><millis zero-padded to 3 digits>"` (and for
non-negative timestamps that string is the decimal representation of the
epoch milliseconds), the SVN path yields epoch seconds and formats
`"<epoch-seconds>000"`, discarding sub-second precision; every string the
parser rejects yields the date-parse error on the TFS path and absence on
the SVN path; and `2019-03-10T15:27:14.803Z` yields `1552231634803`. -/
theorem C4_timestamp_parsing :
    (∀ s d, parseRFC3339 s = some d →
       parse_date s = .ok (intRepr d.secs ++ pad3 d.millis) ∧
       svn_date_string_to_timestamp s = some d.secs ∧
       (0 ≤ d.secs →
         decNatValue (intRepr d.secs ++ pad3 d.millis) = d.secs.toNat * 1000 + d.millis) ∧
       (∀ w info raw, w.runSvn ["info"] = .ok info → strContains info "URL:" = true →
          w.runSvn ["info", "--show-item", "last-changed-date"] = .ok raw →
          trimStr raw = s →
          (Svn.timestamp w).fst = some (intRepr d.secs ++ "000"))) ∧
    (∀ s, parseRFC3339 s = none →
       parse_date s = .error (.DateStringCannotBeParsed s) ∧
       svn_date_string_to_timestamp s = none) ∧
    (∀ s d, parseRFC3339 s = some d → d.millis < 1000) ∧
    parse_date "2019-03-10T15:27:14.803Z" = .ok "1552231634803" := by
  refine ⟨fun s d hparse => ⟨?_, ?_, ?_, ?_⟩, fun s hnone => ⟨?_, ?_⟩,
          fun s d hparse => parse_millis s d hparse, by decide⟩
  · unfold parse_date
    rw [hparse]
  · unfold svn_date_string_to_timestamp
    rw [hparse]
    rfl
  · intro hs
    exact decNat_int_pad d.secs hs d.millis (parse_millis s d hparse)
  · intro w info raw hinfo hurl hraw hts
    unfold Svn.timestamp Svn.is_svn Svn.svn
    rw [hinfo, hraw]
    simp only [hurl]
    simp [hts, svn_date_string_to_timestamp, hparse]
  · unfold parse_date
    rw [hnone]
  · unfold svn_date_string_to_timestamp
    rw [hnone]
    rfl

/-- Witness for C4 at the spec's example date, a second valid date fed
through the SVN path of a concrete world, and a malformed date. -/
theorem C4_witness :
    parse_date "2019-03-10T15:27:14.803Z" =
      .ok (intRepr (1552231634 : Int) ++ pad3 803) ∧
    decNatValue (intRepr (1552231634 : Int) ++ pad3 803) = 1552231634 * 1000 + 803 ∧
    (Svn.timestamp wSvnTrunk).fst = some (intRepr (1565100814 : Int) ++ "000") ∧
    parse_date "garbage" = .error (.DateStringCannotBeParsed "garbage") ∧
    svn_date_string_to_timestamp "garbage" = none :=
  ⟨(C4_timestamp_parsing.1 "2019-03-10T15:27:14.803Z" { secs := 1552231634, millis := 803 }
      (by decide)).1,
   (C4_timestamp_parsing.1 "2019-03-10T15:27:14.803Z" { secs := 1552231634, millis := 803 }
      (by decide)).2.2.1 (by decide),
   (C4_timestamp_parsing.1 "2019-08-06T14:13:34.879966Z" { secs := 1565100814, millis := 879 }
      (by decide)).2.2.2 wSvnTrunk "Path: .\nURL: https://svn.com/repo/trunk\n"
      "2019-08-06T14:13:34.879966Z\n" rfl (by decide) rfl (by decide),
   (C4_timestamp_parsing.2.1 "garbage" (by decide)).1,
   (C4_timestamp_parsing.2.1 "garbage" (by decide)).2⟩

/-! Facts relating the regex scanner to the specification-side match
predicates. -/

theorem head_dropWhile_false {α : Type} (p : α → Bool) (l : List α) (c : α)
    (h : (l.dropWhile p).head? = some c) : p c = false := by
  induction l with
  | nil => exact absurd h (by simp)
  | cons a t ih =>
    rw [List.dropWhile_cons] at h
    split at h
    · exact ih h
    · rename_i hpa
      simp only [List.head?_cons, Option.some.injEq] at h
      subst h
      exact Bool.eq_false_iff.mpr hpa

theorem takeWhile_drop {α : Type} (p : α → Bool) (l : List α) :
    l.drop (l.takeWhile p).length = l.dropWhile p := by
  nth_rewrite 2 [show l = l.takeWhile p ++ l.dropWhile p from
    (List.takeWhile_append_dropWhile p l).symm]
  exact List.drop_left _ _

theorem takeWhile_eq_of {α : Type} (p : α → Bool) :
    ∀ (name rest : List α), name <+: rest → (∀ c ∈ name, p c = true) →
      (∀ c, (rest.drop name.length).head? = some c → p c = false) →
      rest.takeWhile p = name := by
  intro name
  induction name with
  | nil =>
    intro rest _ _ hb
    cases rest with
    | nil => rfl
    | cons c t =>
      have := hb c (by simp)
      simp [List.takeWhile_cons, this]
  | cons a name ih =>
    intro rest hpre hall hb
    rcases hpre with ⟨u, hu⟩
    subst hu
    have ha : p a = true := hall a (List.mem_cons_self a name)
    rw [List.cons_append, List.takeWhile_cons_of_pos ha]
    congr 1
    refine ih (name ++ u) ⟨u, rfl⟩ (fun c hc => hall c (List.mem_cons_of_mem a hc)) ?_
    intro c hc
    refine hb c ?_
    simpa [List.length_cons, List.drop_succ_cons] using hc

theorem kwCapture_eq_some (kw cs name : List Char) :
    kwCapture kw cs = some name ↔ segAtTail kw cs name := by
  constructor
  · intro h
    unfold kwCapture at h
    split_ifs at h with h1 h2
    have hkw : kw <+: cs := List.isPrefixOf_iff_prefix.mp h1
    rcases hkw with ⟨rest, hrest⟩
    have hdropkw : cs.drop kw.length = rest := by
      rw [← hrest]; exact List.drop_left _ _
    rw [hdropkw] at h h2
    simp only [Option.some.injEq] at h
    subst h
    refine ⟨by simpa using h2, ?_, ?_, ?_⟩
    · intro c hc
      have := List.mem_takeWhile_imp hc
      simpa using this
    · rcases List.takeWhile_prefix (l := rest) (fun c => decide (c ≠ '/')) with ⟨u, hu⟩
      exact ⟨u, by rw [← hrest, List.append_assoc, hu]⟩
    · have hd : cs.drop (kw.length + (rest.takeWhile fun c => decide (c ≠ '/')).length) =
          rest.dropWhile fun c => decide (c ≠ '/') := by
        rw [← List.drop_drop, hdropkw, takeWhile_drop]
      rw [hd]
      rcases hdw : rest.dropWhile (fun c => decide (c ≠ '/')) with _ | ⟨c, t⟩
      · exact Or.inl rfl
      · refine Or.inr ?_
        have hpc := head_dropWhile_false (fun c => decide (c ≠ '/')) rest c (by rw [hdw]; rfl)
        simp only [decide_not, Bool.not_eq_false', decide_eq_true_eq] at hpc
        rw [hpc]
        rfl
  · rintro ⟨hne, hslash, hpre, hbound⟩
    have hkw : kw <+: cs := (List.prefix_append kw name).trans hpre
    rcases hpre with ⟨u, hu⟩
    have hcs : cs = kw ++ (name ++ u) := by rw [← hu, List.append_assoc]
    have hdropkw : cs.drop kw.length = name ++ u := by
      rw [hcs]; exact List.drop_left _ _
    have heq : cs.drop (kw.length + name.length) = (name ++ u).drop name.length := by
      rw [← List.drop_drop, hdropkw]
    have hbound2 : ∀ c, ((name ++ u).drop name.length).head? = some c →
        (fun c => decide (c ≠ '/')) c = false := by
      intro c hc
      rw [← heq] at hc
      rcases hbound with hb | hb
      · rw [hb] at hc
        exact absurd hc (by simp)
      · rw [hb] at hc
        simp only [Option.some.injEq] at hc
        subst hc
        simp
    have htw : (name ++ u).takeWhile (fun c => decide (c ≠ '/')) = name :=
      takeWhile_eq_of _ name (name ++ u) ⟨u, rfl⟩
        (fun c hc => by simpa using hslash c hc) hbound2
    unfold kwCapture
    rw [if_pos (List.isPrefixOf_iff_prefix.mpr hkw), hdropkw, htw,
      if_neg (by simpa using hne)]

theorem kw_not_both {k1 k2 cs : List Char} (h12 : ¬ k1 <+: k2) (h21 : ¬ k2 <+: k1)
    (h1 : k1 <+: cs) (h2 : k2 <+: cs) : False :=
  (List.prefix_or_prefix_of_prefix h1 h2).elim h12 h21

theorem segAtTail_starts_kw {kw tail name : List Char} (h : segAtTail kw tail name) :
    kw <+: tail :=
  (List.prefix_append kw name).trans h.2.2.1

theorem branchSegAt_starts_kw {cs : List Char} {i : Nat} {name : List Char}
    (h : branchSegAt cs i name) :
    "/branches/".data <+: cs.drop i ∨ "/tags/".data <+: cs.drop i :=
  h.elim (fun hs => Or.inl (segAtTail_starts_kw hs)) fun hs => Or.inr (segAtTail_starts_kw hs)

theorem branch_trunk_disjoint {cs : List Char} {i : Nat} {name : List Char}
    (hb : branchSegAt cs i name) (ht : trunkSegAt cs i) : False := by
  rcases branchSegAt_starts_kw hb with h | h
  · exact kw_not_both (by decide) (by decide) h ht.1
  · exact kw_not_both (by decide) (by decide) h ht.1

theorem tryBT_iff (cs name : List Char) :
    tryBranchesTags cs = some name ↔ branchSegAt cs 0 name := by
  unfold branchSegAt
  rw [List.drop_zero]
  constructor
  · intro h
    unfold tryBranchesTags at h
    rcases hb : kwCapture "/branches/".data cs with _ | n
    · rw [hb] at h
      exact Or.inr ((kwCapture_eq_some _ cs name).mp h)
    · rw [hb] at h
      simp only [Option.some.injEq] at h
      subst h
      exact Or.inl ((kwCapture_eq_some _ cs n).mp hb)
  · intro h
    unfold tryBranchesTags
    rcases h with h | h
    · rw [(kwCapture_eq_some _ cs name).mpr h]
    · rcases hb : kwCapture "/branches/".data cs with _ | n
      · exact (kwCapture_eq_some _ cs name).mpr h
      · exact (kw_not_both (by decide) (by decide)
          (segAtTail_starts_kw ((kwCapture_eq_some _ cs n).mp hb))
          (segAtTail_starts_kw h)).elim

theorem tryTrunk_iff (cs v : List Char) :
    tryTrunk cs = some v ↔ trunkSegAt cs 0 ∧ v = "trunk".data := by
  unfold tryTrunk trunkSegAt
  rw [List.drop_zero]
  split_ifs with h1
  · simp only [Option.some.injEq]
    constructor
    · intro h
      exact ⟨⟨List.isPrefixOf_iff_prefix.mp h1.1, h1.2⟩, h.symm⟩
    · rintro ⟨-, hv⟩
      exact hv.symm
  · constructor
    · intro h
      exact absurd h (by simp)
    · rintro ⟨⟨hpre, hbound⟩, -⟩
      exact absurd ⟨List.isPrefixOf_iff_prefix.mpr hpre, hbound⟩ h1

theorem matchValAt_unique {cs : List Char} {i : Nat} {v1 v2 : List Char}
    (h1 : matchValAt cs i v1) (h2 : matchValAt cs i v2) : v1 = v2 := by
  rcases h1 with h1 | ⟨h1, hv1⟩ <;> rcases h2 with h2 | ⟨h2, hv2⟩
  · rcases h1 with h1 | h1 <;> rcases h2 with h2 | h2
    · have e1 := (kwCapture_eq_some _ _ v1).mpr h1
      have e2 := (kwCapture_eq_some _ _ v2).mpr h2
      rw [e1] at e2
      exact Option.some_inj.mp e2
    · exact absurd (kw_not_both (by decide) (by decide)
        (segAtTail_starts_kw h1) (segAtTail_starts_kw h2)) id
    · exact absurd (kw_not_both (by decide) (by decide)
        (segAtTail_starts_kw h2) (segAtTail_starts_kw h1)) id
    · have e1 := (kwCapture_eq_some _ _ v1).mpr h1
      have e2 := (kwCapture_eq_some _ _ v2).mpr h2
      rw [e1] at e2
      exact Option.some_inj.mp e2
  · exact absurd (branch_trunk_disjoint h1 h2) id
  · exact absurd (branch_trunk_disjoint h2 h1) id
  · rw [hv1, hv2]

theorem segAtTail_nil {kw name : List Char} (hkw : kw ≠ []) : ¬ segAtTail kw [] name := by
  rintro ⟨-, -, ⟨u, hu⟩, -⟩
  have := congrArg List.length hu
  simp only [List.length_append, List.length_nil] at this
  exact hkw (List.length_eq_zero.mp (by omega))

theorem branchSegAt_nil (i : Nat) (name : List Char) : ¬ branchSegAt [] i name := by
  unfold branchSegAt
  rw [List.drop_nil]
  rintro (h | h)
  · exact segAtTail_nil (by decide) h
  · exact segAtTail_nil (by decide) h

theorem trunkSegAt_nil (i : Nat) : ¬ trunkSegAt [] i := by
  unfold trunkSegAt
  rw [List.drop_nil]
  rintro ⟨⟨u, hu⟩, -⟩
  have := congrArg List.length hu
  simp at this

theorem anyMatchAt_nil (i : Nat) : ¬ anyMatchAt [] i := by
  rintro (⟨name, h⟩ | h)
  · exact branchSegAt_nil i name h
  · exact trunkSegAt_nil i h

theorem branchSegAt_succ_cons (c : Char) (rest : List Char) (i : Nat) (name : List Char) :
    branchSegAt (c :: rest) (i + 1) name ↔ branchSegAt rest i name := by
  unfold branchSegAt
  rw [List.drop_succ_cons]

theorem trunkSegAt_succ_cons (c : Char) (rest : List Char) (i : Nat) :
    trunkSegAt (c :: rest) (i + 1) ↔ trunkSegAt rest i := by
  unfold trunkSegAt
  rw [List.drop_succ_cons]

theorem anyMatchAt_succ_cons (c : Char) (rest : List Char) (i : Nat) :
    anyMatchAt (c :: rest) (i + 1) ↔ anyMatchAt rest i := by
  unfold anyMatchAt
  rw [trunkSegAt_succ_cons]
  constructor
  · rintro (⟨name, h⟩ | h)
    · exact Or.inl ⟨name, (branchSegAt_succ_cons c rest i name).mp h⟩
    · exact Or.inr h
  · rintro (⟨name, h⟩ | h)
    · exact Or.inl ⟨name, (branchSegAt_succ_cons c rest i name).mpr h⟩
    · exact Or.inr h

theorem matchValAt_succ_cons (c : Char) (rest : List Char) (i : Nat) (v : List Char) :
    matchValAt (c :: rest) (i + 1) v ↔ matchValAt rest i v := by
  unfold matchValAt
  rw [branchSegAt_succ_cons, trunkSegAt_succ_cons]

theorem matchValAt_zero_iff (cs v : List Char) :
    matchValAt cs 0 v ↔ (tryBranchesTags cs = some v ∨ tryTrunk cs = some v) := by
  unfold matchValAt
  rw [← tryBT_iff]
  constructor
  · rintro (h | ⟨h, hv⟩)
    · exact Or.inl h
    · exact Or.inr ((tryTrunk_iff cs v).mpr ⟨h, hv⟩)
  · rintro (h | h)
    · exact Or.inl h
    · exact Or.inr ⟨((tryTrunk_iff cs v).mp h).1, ((tryTrunk_iff cs v).mp h).2⟩

theorem anyMatchAt_zero_iff (cs : List Char) :
    anyMatchAt cs 0 ↔ ((∃ n, tryBranchesTags cs = some n) ∨ ∃ v, tryTrunk cs = some v) := by
  unfold anyMatchAt
  constructor
  · rintro (⟨name, h⟩ | h)
    · exact Or.inl ⟨name, (tryBT_iff cs name).mpr h⟩
    · exact Or.inr ⟨"trunk".data, (tryTrunk_iff cs _).mpr ⟨h, rfl⟩⟩
  · rintro (⟨n, h⟩ | ⟨v, h⟩)
    · exact Or.inl ⟨n, (tryBT_iff cs n).mp h⟩
    · exact Or.inr ((tryTrunk_iff cs v).mp h).1

theorem scan_none_iff (cs : List Char) : scanUrl cs = none ↔ ∀ i, ¬ anyMatchAt cs i := by
  induction cs with
  | nil => exact ⟨fun _ i => anyMatchAt_nil i, fun _ => rfl⟩
  | cons c rest ih =>
    constructor
    · intro h i
      have h1 : tryBranchesTags (c :: rest) = none := by
        rcases ht : tryBranchesTags (c :: rest) with _ | n
        · rfl
        · rw [scanUrl, ht] at h
          exact absurd h (by simp)
      have h2 : tryTrunk (c :: rest) = none := by
        rcases ht : tryTrunk (c :: rest) with _ | n
        · rfl
        · rw [scanUrl, h1, ht] at h
          exact absurd h (by simp)
      have h3 : scanUrl rest = none := by
        rw [scanUrl, h1, h2] at h
        exact h
      cases i with
      | zero =>
        intro ha
        rcases (anyMatchAt_zero_iff (c :: rest)).mp ha with ⟨n, hn⟩ | ⟨v, hv⟩
        · rw [h1] at hn
          exact absurd hn (by simp)
        · rw [h2] at hv
          exact absurd hv (by simp)
      | succ i =>
        intro ha
        exact (ih.mp h3) i ((anyMatchAt_succ_cons c rest i).mp ha)
    · intro h
      have h1 : tryBranchesTags (c :: rest) = none := by
        rcases ht : tryBranchesTags (c :: rest) with _ | n
        · rfl
        · exact absurd ((anyMatchAt_zero_iff (c :: rest)).mpr (Or.inl ⟨n, ht⟩)) (h 0)
      have h2 : tryTrunk (c :: rest) = none := by
        rcases ht : tryTrunk (c :: rest) with _ | n
        · rfl
        · exact absurd ((anyMatchAt_zero_iff (c :: rest)).mpr (Or.inr ⟨n, ht⟩)) (h 0)
      rw [scanUrl, h1, h2]
      exact ih.mpr fun i ha => h (i + 1) ((anyMatchAt_succ_cons c rest i).mpr ha)

theorem scan_some_of :
    ∀ (cs : List Char) (i : Nat) (v : List Char), matchValAt cs i v →
      (∀ j, j < i → ¬ anyMatchAt cs j) → scanUrl cs = some v := by
  intro cs
  induction cs with
  | nil =>
    intro i v hm _
    rcases hm with hb | ⟨ht, -⟩
    · exact absurd hb (branchSegAt_nil i v)
    · exact absurd ht (trunkSegAt_nil i)
  | cons c rest ih =>
    intro i v hm hmin
    cases i with
    | zero =>
      rcases (matchValAt_zero_iff (c :: rest) v).mp hm with h | h
      · rw [scanUrl, h]
      · have h1 : tryBranchesTags (c :: rest) = none := by
          rcases ht : tryBranchesTags (c :: rest) with _ | n
          · rfl
          · have hb := (tryBT_iff (c :: rest) n).mp ht
            have htr := ((tryTrunk_iff (c :: rest) v).mp h).1
            exact absurd (branch_trunk_disjoint hb htr) id
        rw [scanUrl, h1, h]
    | succ i =>
      have h0 : ¬ anyMatchAt (c :: rest) 0 := hmin 0 (Nat.succ_pos i)
      have h1 : tryBranchesTags (c :: rest) = none := by
        rcases ht : tryBranchesTags (c :: rest) with _ | n
        · rfl
        · exact absurd ((anyMatchAt_zero_iff (c :: rest)).mpr (Or.inl ⟨n, ht⟩)) h0
      have h2 : tryTrunk (c :: rest) = none := by
        rcases ht : tryTrunk (c :: rest) with _ | n
        · rfl
        · exact absurd ((anyMatchAt_zero_iff (c :: rest)).mpr (Or.inr ⟨n, ht⟩)) h0
      rw [scanUrl, h1, h2]
      refine ih i v ((matchValAt_succ_cons c rest i v).mp hm) fun j hj ha => ?_
      exact hmin (j + 1) (Nat.succ_lt_succ hj) ((anyMatchAt_succ_cons c rest j).mpr ha)

theorem scan_some_to :
    ∀ (cs v : List Char), scanUrl cs = some v →
      ∃ i, matchValAt cs i v ∧ ∀ j, j < i → ¬ anyMatchAt cs j := by
  intro cs
  induction cs with
  | nil =>
    intro v h
    exact absurd h (by simp [scanUrl])
  | cons c rest ih =>
    intro v h
    rcases h1 : tryBranchesTags (c :: rest) with _ | n
    · rcases h2 : tryTrunk (c :: rest) with _ | n2
      · rw [scanUrl, h1, h2] at h
        rcases ih v h with ⟨i, hm, hmin⟩
        refine ⟨i + 1, (matchValAt_succ_cons c rest i v).mpr hm, fun j hj => ?_⟩
        cases j with
        | zero =>
          intro ha
          rcases (anyMatchAt_zero_iff (c :: rest)).mp ha with ⟨n3, hn⟩ | ⟨n3, hn⟩
          · rw [h1] at hn
            exact absurd hn (by simp)
          · rw [h2] at hn
            exact absurd hn (by simp)
        | succ j =>
          intro ha
          exact hmin j (by omega) ((anyMatchAt_succ_cons c rest j).mp ha)
      · rw [scanUrl, h1, h2] at h
        simp only [Option.some.injEq] at h
        subst h
        exact ⟨0, (matchValAt_zero_iff (c :: rest) n2).mpr (Or.inr h2),
          fun j hj => absurd hj (by omega)⟩
    · rw [scanUrl, h1] at h
      simp only [Option.some.injEq] at h
      subst h
      exact ⟨0, (matchValAt_zero_iff (c :: rest) n).mpr (Or.inl h1),
        fun j hj => absurd hj (by omega)⟩

theorem containsSub_of_prefix_drop (needle hay : List Char) :
    ∀ i : Nat, needle <+: hay.drop i → containsSub needle hay = true := by
  induction hay with
  | nil =>
    intro i h
    rw [List.drop_nil] at h
    have : needle = [] := List.prefix_nil.mp h
    subst this
    rfl
  | cons c rest ih =>
    intro i h
    cases i with
    | zero =>
      rw [List.drop_zero] at h
      unfold containsSub
      rw [List.isPrefixOf_iff_prefix.mpr h]
      rfl
    | succ i =>
      rw [List.drop_succ_cons] at h
      unfold containsSub
      rw [ih i h]
      simp

theorem branchSegAt_contains {cs : List Char} {i : Nat} {name : List Char}
    (h : branchSegAt cs i name) :
    containsSub "/branches/".data cs = true ∨ containsSub "/tags/".data cs = true := by
  rcases branchSegAt_starts_kw h with hk | hk
  · exact Or.inl (containsSub_of_prefix_drop _ cs i hk)
  · exact Or.inr (containsSub_of_prefix_drop _ cs i hk)

/-- C10: extraction is leftmost-match.  If a `/trunk` segment occurs at an
earlier position than every `/branches/<name>` or `/tags/<name>` segment,
extraction returns `"trunk"`; and a branches/tags capture wins only when
its segment occurs no later in the URL than every trunk segment. -/
theorem C10_leftmost_match :
    ∀ url : String,
    ((∃ t, trunkSegAt url.data t ∧ ∀ j name, branchSegAt url.data j name → t < j) →
       extract_branch_from_url url = some "trunk") ∧
    (∀ name, extract_branch_from_url url = some name → name ≠ "trunk" →
       ∃ j, branchSegAt url.data j name.data ∧ ∀ t, trunkSegAt url.data t → j ≤ t) := by
  intro url
  constructor
  · rintro ⟨t, htr, hlt⟩
    rcases hscan : scanUrl url.data with _ | v
    · exact absurd (Or.inr htr) ((scan_none_iff url.data).mp hscan t)
    · rcases scan_some_to url.data v hscan with ⟨i, hm, hmin⟩
      rcases hm with hb | ⟨-, hv⟩
      · exact absurd (Or.inr htr) (hmin t (hlt i v hb))
      · subst hv
        unfold extract_branch_from_url
        rw [hscan]
        rfl
  · intro name hex hne
    unfold extract_branch_from_url at hex
    rcases hscan : scanUrl url.data with _ | v
    · rw [hscan] at hex
      exact absurd hex (by simp)
    · rw [hscan] at hex
      simp only [Option.map_some', Option.some.injEq] at hex
      rcases scan_some_to url.data v hscan with ⟨i, hm, hmin⟩
      rcases hm with hb | ⟨-, hv⟩
      · refine ⟨i, ?_, fun t ht => ?_⟩
        · have : name.data = v := by rw [← hex]
          rw [this]
          exact hb
        · by_contra hc
          exact (hmin t (by omega)) (Or.inr ht)
      · subst hv
        exact absurd (by rw [← hex]) hne

/-- Witness for C10: a URL whose only match is a trunk segment, and a URL
resolved through the branches/tags capture. -/
theorem C10_witness :
    extract_branch_from_url "a/trunk/x" = some "trunk" ∧
    ∃ j, branchSegAt "/tags/bar/".data j "bar".data ∧
      ∀ t, trunkSegAt "/tags/bar/".data t → j ≤ t :=
  ⟨(C10_leftmost_match "a/trunk/x").1
     ⟨1, by decide, fun j name h => absurd (branchSegAt_contains h) (by decide)⟩,
   (C10_leftmost_match "/tags/bar/").2 "bar" (by decide) (by decide)⟩


/-- C3 as stated is false: `https://svn.com/a/trunk/branches/foo/x`
contains the slash-terminated segment `/branches/foo/` (at position 23),
yet extraction returns `"trunk"`, because the trunk segment occurs
earlier and the regex is leftmost-match. -/
theorem C3_counterexample : ¬ C3_claim := fun h =>
  absurd (h.1 "https://svn.com/a/trunk/branches/foo/x" "foo".data 23 (by decide)) (by decide)

/-- C3 (amended): extraction follows the leftmost match, and no
terminating slash is required after the captured name.  The leftmost
`/branches/<name>` or `/tags/<name>` segment (name extending to the next
slash or the end) yields `<name>`, the leftmost `/trunk` segment (at the
end or followed by a slash) yields `"trunk"`, and extraction returns
absence exactly when the URL contains no such segment — in particular
`trunkate` and `branching` URLs yield absence. -/
theorem C3_amended_leftmost_extraction :
    (∀ (url : String) (i : Nat) (name : List Char), branchSegAt url.data i name →
       (∀ j, j < i → ¬ anyMatchAt url.data j) →
       extract_branch_from_url url = some (String.mk name)) ∧
    (∀ (url : String) (i : Nat), trunkSegAt url.data i →
       (∀ j, j < i → ¬ anyMatchAt url.data j) →
       extract_branch_from_url url = some "trunk") ∧
    (∀ url : String, extract_branch_from_url url = none ↔ ∀ i, ¬ anyMatchAt url.data i) ∧
    extract_branch_from_url "https://svn.com/repo/trunkate" = none ∧
    extract_branch_from_url "https://svn.com/repo/branching/blue" = none ∧
    extract_branch_from_url "https://svn.com/repo/branches/foo/something" = some "foo" ∧
    extract_branch_from_url "https://svn.com/repo/tags/bar/" = some "bar" ∧
    extract_branch_from_url "https://svn.com/repo/trunk" = some "trunk" := by
  refine ⟨fun url i name hb hmin => ?_, fun url i ht hmin => ?_, fun url => ?_,
          by decide, by decide, by decide, by decide, by decide⟩
  · unfold extract_branch_from_url
    rw [scan_some_of url.data i name (Or.inl hb) hmin]
    rfl
  · unfold extract_branch_from_url
    rw [scan_some_of url.data i "trunk".data (Or.inr ⟨ht, rfl⟩) hmin]
    rfl
  · unfold extract_branch_from_url
    rcases hscan : scanUrl url.data with _ | v
    · simp only [Option.map_none']
      exact ⟨fun _ => (scan_none_iff url.data).mp hscan, fun _ => trivial⟩
    · simp only [Option.map_some']
      constructor
      · intro h
        exact absurd h (by simp)
      · intro h
        rcases scan_some_to url.data v hscan with ⟨i, hm, -⟩
        rcases hm with hb | ⟨ht, -⟩
        · exact absurd (Or.inl ⟨v, hb⟩) (h i)
        · exact absurd (Or.inr ht) (h i)

/-- Witness for the amended C3 at matches sitting at position 0. -/
theorem C3_amended_witness :
    extract_branch_from_url "/tags/bar/" = some (String.mk "bar".data) ∧
    extract_branch_from_url "/trunk/x" = some "trunk" :=
  ⟨C3_amended_leftmost_extraction.1 "/tags/bar/" 0 "bar".data (by decide)
     (fun j hj => absurd hj (by omega)),
   C3_amended_leftmost_extraction.2.1 "/trunk/x" 0 (by decide)
     (fun j hj => absurd hj (by omega))⟩

/-! Trace-shape lemmas for the application-level resolvers. -/

theorem svn_timestamp_snd (w : World) :
    Event.svnCmd ["info"] ∈ (Svn.timestamp w).snd := by
  unfold Svn.timestamp Svn.is_svn Svn.svn
  rcases w.runSvn ["info"] with e | s
  · simp
  · cases hc : strContains s "URL:" <;> simp [hc]

theorem svn_branch_snd (w : World) :
    Event.svnCmd ["info"] ∈ (Svn.branch w).snd := by
  unfold Svn.branch Svn.is_svn Svn.svn
  rcases w.runSvn ["info"] with e | s
  · simp
  · cases hc : strContains s "URL:" <;> simp [hc]

theorem git_head_snd (w : World) :
    Event.gitCmd ["rev-parse", "--is-inside-work-tree"] ∈ (Git.head_timestamp w).snd := by
  unfold Git.head_timestamp Git.is_git Git.git
  rcases w.runGit ["rev-parse", "--is-inside-work-tree"] with e | s
  · simp
  · cases hc : trimStr s == "true" <;> simp [hc]

theorem git_guess_snd (w : World) :
    Event.gitCmd ["rev-parse", "--is-inside-work-tree"] ∈ (Git.guess_branch w).snd := by
  unfold Git.guess_branch Git.is_git Git.git
  rcases w.runGit ["rev-parse", "--is-inside-work-tree"] with e | s
  · simp
  · cases hc : trimStr s == "true" <;> simp [hc]

theorem tfs_timestamp_envread (w : World) (jp : String → Option String) (pat : Option String) :
    Event.envRead "SYSTEM_TEAMPROJECTID" ∈ (Tfs.timestamp w jp pat).snd := by
  unfold Tfs.timestamp
  rcases w.env "SYSTEM_TEAMPROJECTID" with _ | tp
  · simp
  · rcases w.env "BUILD_SOURCEVERSION" with _ | cs
    · simp
    · rcases w.env "SYSTEM_TEAMFOUNDATIONCOLLECTIONURI" with _ | cu
      · simp
      · rcases hr : Tfs.timestamp_or_error w jp cu tp cs pat with ⟨r, t⟩
        cases r <;> simp [hr]

theorem guess_timestamp_snd (w : World) (jp : String → Option String) (pat : Option String) :
    (App.guess_timestamp w jp pat).snd =
      (Svn.timestamp w).snd ++ (Git.head_timestamp w).snd ++ (Tfs.timestamp w jp pat).snd :=
  rfl

theorem guess_branch_snd (w : World) :
    (App.guess_branch w).snd =
      (App.branch_from_svn w).snd ++ (App.branch_from_environment w).snd ++
        (App.guess_branch_from_git w).snd :=
  rfl

theorem branch_from_svn_snd (w : World) :
    (App.branch_from_svn w).snd = (Svn.branch w).snd ++ (Svn.branch_from_environment w).snd :=
  rfl


/-- C1 as stated is false: in a world where the SVN probe yields a
timestamp and the TFS variables are configured, `guess_timestamp` still
runs the Git probe and still sends the TFS request, because Rust's
`Option::or` evaluates its argument eagerly and the source binds all
three probe results before combining them. -/
theorem C1_counterexample : ¬ C1_claim := fun h =>
  absurd
    (show Event.tfsHttpRequest (.Oauth "secret") ∈
        (App.guess_timestamp wSvnTfs jpNone none).snd by decide)
    (((h wSvnTfs jpNone none).1 (by decide)).2 (.Oauth "secret"))

/-- C1 (amended): the priority order governs only the returned value; the
probes themselves are all executed on every invocation (Rust's
`Option::or` is eager).  Timestamp resolution always runs `svn info` and
`git rev-parse` and reads the TFS precondition variable, and sends the
TFS request whenever the preconditions and a personal token are present;
branch resolution always runs `svn info`, reads `SVN_URL` and every CI
branch variable, and runs `git rev-parse`.  The returned values remain
the short-circuit or-chains of the source values. -/
theorem C1_amended_all_sources_consulted :
    ∀ (w : World) (jp : String → Option String) (pat : Option String),
    (Event.svnCmd ["info"] ∈ (App.guess_timestamp w jp pat).snd ∧
     Event.gitCmd ["rev-parse", "--is-inside-work-tree"] ∈ (App.guess_timestamp w jp pat).snd ∧
     Event.envRead "SYSTEM_TEAMPROJECTID" ∈ (App.guess_timestamp w jp pat).snd ∧
     (∀ tp cs cu t, w.env "SYSTEM_TEAMPROJECTID" = some tp →
        w.env "BUILD_SOURCEVERSION" = some cs →
        w.env "SYSTEM_TEAMFOUNDATIONCOLLECTIONURI" = some cu →
        pat = some t →
        Event.tfsHttpRequest (.Personal t) ∈ (App.guess_timestamp w jp pat).snd)) ∧
    (Event.svnCmd ["info"] ∈ (App.guess_branch w).snd ∧
     Event.envRead "SVN_URL" ∈ (App.guess_branch w).snd ∧
     (∀ n ∈ App.branchEnvVars, Event.envRead n ∈ (App.guess_branch w).snd) ∧
     Event.gitCmd ["rev-parse", "--is-inside-work-tree"] ∈ (App.guess_branch w).snd) ∧
    (App.guess_timestamp w jp pat).fst =
      ((Svn.timestamp w).fst.or (Git.head_timestamp w).fst).or (Tfs.timestamp w jp pat).fst ∧
    (App.guess_branch w).fst =
      ((App.branch_from_svn w).fst.or (App.branch_from_environment w).fst).or
        (App.guess_branch_from_git w).fst := by
  intro w jp pat
  refine ⟨⟨?_, ?_, ?_, ?_⟩, ⟨?_, ?_, ?_, ?_⟩, rfl, rfl⟩
  · rw [guess_timestamp_snd]
    simp only [List.mem_append]
    exact Or.inl (Or.inl (svn_timestamp_snd w))
  · rw [guess_timestamp_snd]
    simp only [List.mem_append]
    exact Or.inl (Or.inr (git_head_snd w))
  · rw [guess_timestamp_snd]
    simp only [List.mem_append]
    exact Or.inr (tfs_timestamp_envread w jp pat)
  · intro tp cs cu t h1 h2 h3 hpat
    subst hpat
    rw [guess_timestamp_snd]
    simp only [List.mem_append]
    refine Or.inr ?_
    rw [tfs_timestamp_eq w jp (some t) tp cs cu h1 h2 h3]
    simp only [List.mem_append]
    exact Or.inl (Or.inr (by rw [tfs_snd_personal]; simp))
  · rw [guess_branch_snd, branch_from_svn_snd]
    simp only [List.mem_append]
    exact Or.inl (Or.inl (Or.inl (svn_branch_snd w)))
  · rw [guess_branch_snd, branch_from_svn_snd]
    simp only [List.mem_append]
    exact Or.inl (Or.inl (Or.inr (by simp [Svn.branch_from_environment])))
  · intro n hn
    rw [guess_branch_snd]
    simp only [List.mem_append]
    exact Or.inl (Or.inr (List.mem_map_of_mem Event.envRead hn))
  · rw [guess_branch_snd]
    simp only [List.mem_append]
    exact Or.inr (git_guess_snd w)

/-- Witness for the amended C1 at the concrete SVN-and-TFS world with a
personal token. -/
theorem C1_amended_witness :
    Event.tfsHttpRequest (.Personal "pat-token") ∈
      (App.guess_timestamp wSvnTfs jpNone (some "pat-token")).snd :=
  ((C1_amended_all_sources_consulted wSvnTfs jpNone (some "pat-token")).1).2.2.2
    "proj" "42" "https://tfs.example" "pat-token" rfl rfl rfl rfl
